import Mathlib

/-!
Verification of the helm-converter core of this repository against its
design specification.

The development shallowly embeds the Python sources
(`hack/setup/scripts/helm-converter/compare_manifests.py`,
`helm_converter/generators/workload_generator.py`,
`helm_converter/values_generator/component_builder.py`,
`helm_converter/chart_generator.py`) as executable Lean functions over a
YAML/JSON-like value type, and proves or refutes the specified properties.

Modelling conventions, used throughout:
* Python values (the result of `yaml.safe_load`) are modelled by `Val`.
  Mapping keys are strings (the manifests handled by the tool only use
  string keys); floats are modelled by their shortest decimal rendering
  (integer part and fraction digits), which is how they appear in, and are
  re-serialized to, YAML documents.
* Python exceptions are modelled by the `Res` monad: `.err e` is an
  exception of class `e` propagating out of the modelled call.
* Python `dict` preserves insertion order; it is modelled by the
  association list `VMap` (ordered, keys assumed unique where the sources
  assume real dicts).
-/

set_option autoImplicit false

namespace KserveHelm

/-- Python exception classes distinguished by the sources' `except` clauses. -/
inductive PyErr where
  | key    -- KeyError
  | idx    -- IndexError
  | typ    -- TypeError
  | val    -- ValueError
  | attr   -- AttributeError
  deriving DecidableEq, Repr

/-- Result of a modelled Python computation: a value or a raised exception. -/
inductive Res (α : Type) where
  | ok (a : α)
  | err (e : PyErr)
  deriving DecidableEq, Repr

instance : Monad Res where
  pure a := .ok a
  bind r f := match r with
    | .ok a => f a
    | .err e => .err e

def Res.isOk {α : Type} : Res α → Bool
  | .ok _ => true
  | .err _ => false

/-- `try ... except` with a handler selecting on the exception class. -/
def Res.catch {α : Type} (r : Res α) (h : PyErr → Res α) : Res α :=
  match r with
  | .ok a => .ok a
  | .err e => h e

mutual
/-- A Python value as produced by `yaml.safe_load` / `json.loads`. -/
inductive Val where
  | vNull
  | vBool (b : Bool)
  | vInt (n : Int)
  | vFloat (ip : Int) (frac : String)
  | vStr (s : String)
  | vList (l : VList)
  | vMap (m : VMap)
  deriving DecidableEq, Repr
/-- A Python list of `Val`s. -/
inductive VList where
  | nil
  | cons (hd : Val) (tl : VList)
  deriving DecidableEq, Repr
/-- A Python dict with string keys, in insertion order. -/
inductive VMap where
  | nil
  | cons (k : String) (v : Val) (tl : VMap)
  deriving DecidableEq, Repr
end

open Val

/-- Build a `VList` from a Lean list (for writing concrete documents). -/
def VList.ofList : List Val → VList
  | [] => .nil
  | x :: xs => .cons x (VList.ofList xs)

/-- Build a `VMap` from a Lean list of pairs (for writing concrete documents). -/
def VMap.ofList : List (String × Val) → VMap
  | [] => .nil
  | (k, v) :: xs => .cons k v (VMap.ofList xs)

def VList.toList : VList → List Val
  | .nil => []
  | .cons x xs => x :: xs.toList

def VMap.toList : VMap → List (String × Val)
  | .nil => []
  | .cons k v xs => (k, v) :: xs.toList

def VList.length : VList → Nat
  | .nil => 0
  | .cons _ xs => 1 + xs.length

def VMap.length : VMap → Nat
  | .nil => 0
  | .cons _ _ xs => 1 + xs.length

/-- First binding of a key, as a Python dict lookup (keys assumed unique). -/
def VMap.lookup : VMap → String → Option Val
  | .nil, _ => none
  | .cons k v xs, key => if k = key then some v else xs.lookup key

def VMap.hasKey (m : VMap) (key : String) : Bool :=
  (m.lookup key).isSome

/-- Keys in insertion order. -/
def VMap.keys : VMap → List String
  | .nil => []
  | .cons k _ xs => k :: xs.keys

/-- `dict.pop(key, None)`: remove the binding of `key` (first occurrence). -/
def VMap.erase : VMap → String → VMap
  | .nil, _ => .nil
  | .cons k v xs, key => if k = key then xs else .cons k v (xs.erase key)

/-- `dict[key] = v`: replace in place if present, else append. -/
def VMap.set : VMap → String → Val → VMap
  | .nil, key, v => .cons key v .nil
  | .cons k w xs, key, v =>
      if k = key then .cons k v xs else .cons k w (xs.set key v)

/-- `{k: v for k, v in m.items() if k != key}`: drop every binding of `key`. -/
def VMap.filterOut : VMap → String → VMap
  | .nil, _ => .nil
  | .cons k v xs, key =>
      if k = key then xs.filterOut key else .cons k v (xs.filterOut key)

/-- Fraction digits of a float, as a natural number (for exact comparison). -/
def fracDigitsVal : List Char → Option Nat
  | [] => some 0
  | c :: cs =>
      if c.isDigit then
        match fracDigitsVal cs with
        | some n => some (n + (c.toNat - '0'.toNat) * 10 ^ cs.length)
        | none => none
      else none

/-- Exact rational value of a modelled number (`bool` counts as an int,
as in Python where `bool` is a subclass of `int`). -/
def pyNumVal : Val → Option ℚ
  | vBool b => some (if b then 1 else 0)
  | vInt n => some (n : ℚ)
  | vFloat ip frac =>
      match fracDigitsVal frac.data with
      | some d =>
          let f : ℚ := (d : ℚ) / ((10 : ℚ) ^ frac.data.length)
          some (if ip < 0 then (ip : ℚ) - f else (ip : ℚ) + f)
      | none => none
  | _ => none

mutual
/-- Python `==` on modelled values: numbers compare by value across
`bool`/`int`/`float`; dicts compare order-insensitively; lists pointwise. -/
def pyEq : Val → Val → Bool
  | vNull, vNull => true
  | vStr a, vStr b => a = b
  | vBool a, b => match pyNumVal b with
      | some q => ((if a then (1 : ℚ) else 0) = q)
      | none => false
  | vInt n, b => match pyNumVal b with
      | some q => ((n : ℚ) = q)
      | none => false
  | vFloat ip f, b => match pyNumVal (vFloat ip f), pyNumVal b with
      | some p, some q => p = q
      | _, _ => false
  | vList a, vList b => pyEqList a b
  | vMap a, vMap b => (a.length == b.length) && pyEqMapSub a b
  | _, _ => false
def pyEqList : VList → VList → Bool
  | .nil, .nil => true
  | .cons x xs, .cons y ys => pyEq x y && pyEqList xs ys
  | _, _ => false
/-- Every binding of the first dict matches the second by key. -/
def pyEqMapSub : VMap → VMap → Bool
  | .nil, _ => true
  | .cons k v xs, b => (match b.lookup k with
      | some w => pyEq v w
      | none => false) && pyEqMapSub xs b
end

/-- Python `str()` of an int (matches Lean's rendering). -/
def intStr (n : Int) : String := toString n

/-- Python `str()`/`repr()` of a float modelled by its decimal rendering. -/
def floatStr (ip : Int) (frac : String) : String := intStr ip ++ "." ++ frac

mutual
/-- Python `str()` of a value (used by f-string interpolation). For
containers this is `repr`; `repr` of strings is modelled without
inner-quote escaping (no theorem depends on it). -/
def pyStr : Val → String
  | vNull => "None"
  | vBool b => if b then "True" else "False"
  | vInt n => intStr n
  | vFloat ip f => floatStr ip f
  | vStr s => s
  | vList l => "[" ++ pyReprList l ++ "]"
  | vMap m => "\x7b" ++ pyReprMap m ++ "\x7d"
def pyRepr : Val → String
  | vNull => "None"
  | vBool b => if b then "True" else "False"
  | vInt n => intStr n
  | vFloat ip f => floatStr ip f
  | vStr s => "'" ++ s ++ "'"
  | vList l => "[" ++ pyReprList l ++ "]"
  | vMap m => "\x7b" ++ pyReprMap m ++ "\x7d"
def pyReprList : VList → String
  | .nil => ""
  | .cons x .nil => pyRepr x
  | .cons x xs => pyRepr x ++ ", " ++ pyReprList xs
def pyReprMap : VMap → String
  | .nil => ""
  | .cons k v .nil => "'" ++ k ++ "': " ++ pyRepr v
  | .cons k v xs => "'" ++ k ++ "': " ++ pyRepr v ++ ", " ++ pyReprMap xs
end

/-- Python truthiness of a value. -/
def pyTruthy : Val → Bool
  | vNull => false
  | vBool b => b
  | vInt n => n ≠ 0
  | vFloat ip f => ¬(ip = 0 ∧ (fracDigitsVal f.data = some 0))
  | vStr s => s ≠ ""
  | vList l => l ≠ .nil
  | vMap m => m ≠ .nil

/-- `x.get(key, default)`: only dicts have `.get`; anything else raises
`AttributeError`. -/
def pyGet (v : Val) (key : String) (dflt : Val) : Res Val :=
  match v with
  | vMap m => .ok ((m.lookup key).getD dflt)
  | _ => .err .attr

/-- Substring test on raw characters. -/
def hasSubChars (pat : List Char) : List Char → Bool
  | [] => pat.isPrefixOf []
  | c :: cs => pat.isPrefixOf (c :: cs) || hasSubChars pat cs

def hasSub (pat s : String) : Bool := hasSubChars pat.data s.data

/-- `key in v`: dict key membership, substring test on strings, `==`-based
membership on lists, `TypeError` otherwise. -/
def pyIn (key : String) (v : Val) : Res Bool :=
  match v with
  | vMap m => .ok (m.hasKey key)
  | vStr s => .ok (hasSub key s)
  | vList l => .ok (go l)
  | _ => .err .typ
where
  go : VList → Bool
    | .nil => false
    | .cons x xs => pyEq (vStr key) x || go xs

/-- `v[key]` with a string subscript: dict lookup (`KeyError` when absent),
`TypeError` on anything else (including lists and strings). -/
def vSub (v : Val) (key : String) : Res Val :=
  match v with
  | vMap m => match m.lookup key with
      | some w => .ok w
      | none => .err .key
  | _ => .err .typ

/-- Python list indexing with negative-index support (`IndexError` when out
of range). -/
def pyIndexList {α : Type} (l : List α) (i : Int) : Res α :=
  let n : Int := (l.length : Int)
  let j := if i < 0 then n + i else i
  if h : 0 ≤ j ∧ j < n then
    .ok (l.get ⟨j.toNat, by
      have := h.2
      omega⟩)
  else .err .idx

/-- `v[i]` with an integer subscript: list element, character of a string,
`KeyError` on dicts (our dict keys are strings, so an int key is never
present), `TypeError` otherwise. -/
def vSubIdx (v : Val) (i : Int) : Res Val :=
  match v with
  | vList l => pyIndexList l.toList i
  | vStr s => do
      let c ← pyIndexList s.data i
      pure (vStr (String.mk [c]))
  | vMap _ => .err .key
  | _ => .err .typ

/-- Code-point order on character lists (Python string `<`). -/
def charListLt : List Char → List Char → Bool
  | [], [] => false
  | [], _ :: _ => true
  | _ :: _, [] => false
  | a :: as, b :: bs =>
      if a.val < b.val then true
      else if b.val < a.val then false
      else charListLt as bs

def strLt (a b : String) : Bool := charListLt a.data b.data

def insSorted (s : String) : List String → List String
  | [] => [s]
  | x :: xs => if strLt s x then s :: x :: xs else x :: insSorted s xs

/-- `sorted(...)` on strings (stable insertion sort, code-point order). -/
def sortStrs : List String → List String
  | [] => []
  | x :: xs => insSorted x (sortStrs xs)

/-- Distinct elements in first-occurrence order (models a Python `set`
together with `sortStrs` and membership). -/
def dedupFirst : List String → List String
  | [] => []
  | x :: xs => x :: (dedupFirst xs).filter (· ≠ x)

def strStarts (pre s : String) : Bool := pre.data.isPrefixOf s.data

/-- `s.split(c)` for a single-character separator (Python semantics:
`"".split('.') == ['']`). -/
def splitOnChar (c : Char) : List Char → List (List Char)
  | [] => [[]]
  | x :: xs =>
    let r := splitOnChar c xs
    if x = c then [] :: r
    else match r with
      | [] => [[x]]
      | h :: t => (x :: h) :: t

/-- Split at the first occurrence of `pat` (assumed present):
`s.split(pat, 1)`. -/
def splitFirstSub (pat : List Char) : List Char → List Char × List Char
  | [] => ([], [])
  | c :: cs =>
      if pat.isPrefixOf (c :: cs) then ([], (c :: cs).drop pat.length)
      else
        let r := splitFirstSub pat cs
        (c :: r.1, r.2)

/-- `s.rstrip(c)` for one character: drop all trailing occurrences. -/
def dropTrailing (ch : Char) (l : List Char) : List Char :=
  (l.reverse.dropWhile (· = ch)).reverse

/-- Helper of `rsplit1`: cut at the last occurrence of `d`. -/
def rsplitGo (d : List Char) : List Char → List Char × List Char
  | [] => ([], [])
  | c :: cs =>
      if d.isPrefixOf (c :: cs) && !hasSubChars d ((c :: cs).drop d.length) then
        ([], (c :: cs).drop d.length)
      else
        (c :: (rsplitGo d cs).1, (rsplitGo d cs).2)

/-- `s.rsplit(d, 1)`: split at the last occurrence of `d`, if any. -/
def rsplit1 (d : List Char) (s : List Char) : List (List Char) :=
  if hasSubChars d s then [(rsplitGo d s).1, (rsplitGo d s).2]
  else [s]

/-- `s.split(d)` for a non-empty separator string (leftmost,
non-overlapping). -/
def splitSub (d : List Char) : List Char → List (List Char)
  | [] => [[]]
  | c :: cs =>
      if h : d.isPrefixOf (c :: cs) ∧ d ≠ [] then
        [] :: splitSub d ((c :: cs).drop d.length)
      else
        match splitSub d cs with
        | [] => [[c]]
        | p :: t => (c :: p) :: t
termination_by l => l.length
decreasing_by
  · simp only [List.length_drop, List.length_cons]
    have : d.length ≥ 1 := by
      cases d with
      | nil => exact absurd rfl h.2
      | cons _ _ => simp
    omega
  · simp

def countChar (c : Char) (l : List Char) : Nat :=
  (l.filter (· = c)).length

/-- `int(s)`: optional surrounding spaces, optional sign, digits;
`ValueError` otherwise. -/
def pyIntParse (l : List Char) : Res Int :=
  let l := (l.dropWhile (· = ' ')).reverse.dropWhile (· = ' ') |>.reverse
  let (neg, ds) := match l with
    | '-' :: r => (true, r)
    | '+' :: r => (false, r)
    | r => (false, r)
  if ds ≠ [] ∧ ds.all Char.isDigit then
    let n := ds.foldl (fun a c => a * 10 + (c.toNat - '0'.toNat)) 0
    .ok (if neg then -(n : Int) else (n : Int))
  else .err .val

def strJoin (sep : String) : List String → String
  | [] => ""
  | [x] => x
  | x :: xs => x ++ sep ++ strJoin sep xs

/-! ### A small JSON reader, modelling Python's `json.loads`.

Modelled for objects, arrays, double-quoted strings without escape
sequences, integers, `true`/`false`/`null`.  Anything else (floats, string
escapes) is treated as a parse failure (`none`, i.e. `JSONDecodeError`).
No theorem below depends on the parse result of a successfully parsed
document except through determinism (both comparison sides always hold the
same text wherever a theorem reaches this reader). -/

def jsonWs (l : List Char) : List Char :=
  l.dropWhile (fun c => c = ' ' ∨ c = '\t' ∨ c = '\n' ∨ c = '\r')

def jsonStrBody : List Char → Option (List Char × List Char)
  | [] => none
  | c :: cs =>
      if c = '"' then some ([], cs)
      else if c = '\\' then none
      else match jsonStrBody cs with
        | some (s, rest) => some (c :: s, rest)
        | none => none

def jsonNat : List Char → Option (Nat × List Char) := fun l =>
  let ds := l.takeWhile Char.isDigit
  if ds = [] then none
  else
    let rest := l.drop ds.length
    match rest with
    | '.' :: _ => none
    | 'e' :: _ => none
    | 'E' :: _ => none
    | _ => some (ds.foldl (fun a c => a * 10 + (c.toNat - '0'.toNat)) 0, rest)

def appendVMap : VMap → String → Val → VMap
  | .nil, k, v => .cons k v .nil
  | .cons k' v' t, k, v => .cons k' v' (appendVMap t k v)

def appendVList : VList → Val → VList
  | .nil, v => .cons v .nil
  | .cons x t, v => .cons x (appendVList t v)

mutual
def jsonVal : Nat → List Char → Option (Val × List Char)
  | 0, _ => none
  | fuel + 1, l =>
    match jsonWs l with
    | '\x7b' :: r => jsonObj fuel (jsonWs r) VMap.nil true
    | '[' :: r => jsonArr fuel (jsonWs r) VList.nil true
    | '"' :: r =>
        match jsonStrBody r with
        | some (s, rest) => some (vStr (String.mk s), rest)
        | none => none
    | 't' :: 'r' :: 'u' :: 'e' :: r => some (vBool true, r)
    | 'f' :: 'a' :: 'l' :: 's' :: 'e' :: r => some (vBool false, r)
    | 'n' :: 'u' :: 'l' :: 'l' :: r => some (vNull, r)
    | '-' :: r =>
        match jsonNat r with
        | some (n, rest) => some (vInt (-(n : Int)), rest)
        | none => none
    | c :: r =>
        if c.isDigit then
          match jsonNat (c :: r) with
          | some (n, rest) => some (vInt (n : Int), rest)
          | none => none
        else none
    | [] => none
def jsonObj : Nat → List Char → VMap → Bool → Option (Val × List Char)
  | 0, _, _, _ => none
  | fuel + 1, l, acc, first =>
    match l with
    | '\x7d' :: r => if first then some (vMap acc, r) else none
    | '"' :: r =>
        match jsonStrBody r with
        | some (k, rest) =>
            match jsonWs rest with
            | ':' :: r2 =>
                match jsonVal fuel r2 with
                | some (v, r3) =>
                    match jsonWs r3 with
                    | ',' :: r4 => jsonObjMore fuel (jsonWs r4) (appendVMap acc (String.mk k) v)
                    | '\x7d' :: r4 => some (vMap (appendVMap acc (String.mk k) v), r4)
                    | _ => none
                | none => none
            | _ => none
        | none => none
    | _ => none
def jsonObjMore : Nat → List Char → VMap → Option (Val × List Char)
  | 0, _, _ => none
  | fuel + 1, l, acc => jsonObj fuel l acc false
def jsonArr : Nat → List Char → VList → Bool → Option (Val × List Char)
  | 0, _, _, _ => none
  | fuel + 1, l, acc, first =>
    match l with
    | ']' :: r => if first then some (vList acc, r) else none
    | l' =>
        match jsonVal fuel l' with
        | some (v, r) =>
            match jsonWs r with
            | ',' :: r2 => jsonArrMore fuel (jsonWs r2) (appendVList acc v)
            | ']' :: r2 => some (vList (appendVList acc v), r2)
            | _ => none
        | none => none
def jsonArrMore : Nat → List Char → VList → Option (Val × List Char)
  | 0, _, _ => none
  | fuel + 1, l, acc => jsonArr fuel l acc false
end

def jsonLoads (s : String) : Option Val :=
  match jsonVal (s.data.length + 1) s.data with
  | some (v, rest) => if jsonWs rest = [] then some v else none
  | none => none

/-- Modelled `yaml.safe_load` restricted to scalar documents: decimal
integers, simple decimal floats, booleans, null and the empty document;
any other text — including nested mapping/sequence payloads — is kept as
the original string.  (Used only where both comparison sides hold the same
text, so the restriction does not influence any theorem.) -/
def yamlLoadScalar (s : String) : Val :=
  if s = "" then vNull
  else if s = "null" ∨ s = "~" ∨ s = "Null" ∨ s = "NULL" then vNull
  else if s = "true" ∨ s = "True" ∨ s = "TRUE" then vBool true
  else if s = "false" ∨ s = "False" ∨ s = "FALSE" then vBool false
  else match pyIntParse s.data with
    | .ok n => vInt n
    | .err _ =>
        match splitOnChar '.' s.data with
        | [a, b] =>
            if a ≠ [] ∧ b ≠ [] ∧ (a.all Char.isDigit ∨ (a.headI = '-' ∧ a.tail ≠ [] ∧ a.tail.all Char.isDigit)) ∧ b.all Char.isDigit then
              match pyIntParse a with
              | .ok n => vFloat n (String.mk b)
              | .err _ => vStr s
            else vStr s
        | _ => vStr s

/-! ### `compare_manifests.py`: normalization -/

mutual
/-- `normalize_labels_annotations`: recursively convert numbers to strings
(Python `bool` is an `int` subclass, so booleans are converted too). -/
def normalize_labels_annotations : Val → Val
  | vMap m => vMap (normLAMap m)
  | vList l => vList (normLAList l)
  | vBool b => vStr (if b then "True" else "False")
  | vInt n => vStr (intStr n)
  | vFloat ip f => vStr (floatStr ip f)
  | v => v
def normLAList : VList → VList
  | .nil => .nil
  | .cons x xs => .cons (normalize_labels_annotations x) (normLAList xs)
def normLAMap : VMap → VMap
  | .nil => .nil
  | .cons k v xs => .cons k (normalize_labels_annotations v) (normLAMap xs)
end

def helm_labels : List String :=
  ["helm.sh/chart", "app.kubernetes.io/managed-by", "app.kubernetes.io/instance",
   "app.kubernetes.io/name", "app.kubernetes.io/version"]

def helm_annotations : List String :=
  ["meta.helm.sh/release-name", "meta.helm.sh/release-namespace"]

def expectMap (v : Val) (e : PyErr) : Res VMap :=
  match v with
  | vMap m => .ok m
  | _ => .err e

/-- The `normalize_metadata` helper of `normalize_resource`: strip the Helm
provenance labels/annotations, normalize the remaining values, and drop the
dict entirely when it becomes empty. -/
def normalize_metadata (metadata : Val) : Res Val := do
  let md1 ← (do
    let hasL ← pyIn "labels" metadata
    if hasL then do
      let labels ← vSub metadata "labels"
      let lm ← expectMap labels .attr
      let lm := normLAMap (helm_labels.foldl (fun m l => m.erase l) lm)
      let mm ← expectMap metadata .typ
      let mm := mm.set "labels" (vMap lm)
      pure (vMap (if lm = .nil then mm.erase "labels" else mm))
    else pure metadata)
  let hasA ← pyIn "annotations" md1
  if hasA then do
    let ann ← vSub md1 "annotations"
    let am ← expectMap ann .attr
    let am := normLAMap (helm_annotations.foldl (fun m l => m.erase l) am)
    let mm ← expectMap md1 .typ
    let mm := mm.set "annotations" (vMap am)
    pure (vMap (if am = .nil then mm.erase "annotations" else mm))
  else pure md1

def workloadKinds : List String :=
  ["Deployment", "StatefulSet", "DaemonSet", "Job", "CronJob"]

/-- ConfigMap-data normalization step: drop the `_example` key and parse
string values as YAML. -/
def normCMData : VMap → VMap
  | .nil => .nil
  | .cons k v xs =>
      if k = "_example" then normCMData xs
      else
        .cons k (match v with | vStr s => yamlLoadScalar s | w => w) (normCMData xs)

/-- `normalize_resource`: remove Helm-specific fields that the comparison
ignores. -/
def normalize_resource (resource : Val) : Res Val := do
  let hasMd ← pyIn "metadata" resource
  let n1 ← if hasMd then do
      let md ← vSub resource "metadata"
      let md' ← normalize_metadata md
      let mm ← expectMap resource .typ
      pure (vMap (mm.set "metadata" md'))
    else pure resource
  let kind1 ← pyGet n1 "kind" vNull
  let n2 ← if workloadKinds.any (fun k => pyEq kind1 (vStr k)) then do
      let hasSpec ← pyIn "spec" n1
      if hasSpec then do
        let spec ← vSub n1 "spec"
        let hasT ← pyIn "template" spec
        if hasT then do
          let tmpl ← vSub spec "template"
          let hasM ← pyIn "metadata" tmpl
          if hasM then do
            let md ← vSub tmpl "metadata"
            let md' ← normalize_metadata md
            let tm ← expectMap tmpl .typ
            let sm ← expectMap spec .typ
            let nm ← expectMap n1 .typ
            pure (vMap (nm.set "spec" (vMap (sm.set "template" (vMap (tm.set "metadata" md'))))))
          else pure n1
        else pure n1
      else pure n1
    else pure n1
  let n3 ← (do
    let hasSpec ← pyIn "spec" n2
    if hasSpec then do
      let spec ← vSub n2 "spec"
      let hasSel ← pyIn "selector" spec
      if hasSel then do
        let sel ← vSub spec "selector"
        let hasML ← pyIn "matchLabels" sel
        if hasML then do
          let ml ← vSub sel "matchLabels"
          let selM ← expectMap sel .typ
          let sm ← expectMap spec .typ
          let nm ← expectMap n2 .typ
          pure (vMap (nm.set "spec" (vMap (sm.set "selector"
            (vMap (selM.set "matchLabels" (normalize_labels_annotations ml)))))))
        else pure n2
      else pure n2
    else pure n2)
  let kind2 ← pyGet n3 "kind" vNull
  if pyEq kind2 (vStr "ConfigMap") then do
    let hasData ← pyIn "data" n3
    if hasData then do
      let data ← vSub n3 "data"
      let dm ← expectMap data .attr
      let nm ← expectMap n3 .typ
      pure (vMap (nm.set "data" (vMap (normCMData dm))))
    else pure n3
  else pure n3

/-- `get_resource_key`: `kind/namespace/name`, or `kind/name` when the
namespace is absent or falsy. -/
def get_resource_key (resource : Val) : Res String := do
  let kind ← pyGet resource "kind" (vStr "Unknown")
  let mdRaw ← pyGet resource "metadata" (vMap .nil)
  let name ← pyGet mdRaw "name" (vStr "unknown")
  let ns ← pyGet mdRaw "namespace" (vStr "")
  pure (if pyTruthy ns then pyStr kind ++ "/" ++ pyStr ns ++ "/" ++ pyStr name
        else pyStr kind ++ "/" ++ pyStr name)

/-- Insertion sort of dict entries by key (string code-point order), as done
by `sorted(obj.items())` for string keys. -/
def vmapInsSorted (k : String) (v : Val) : VMap → VMap
  | .nil => .cons k v .nil
  | .cons k' v' xs =>
      if strLt k k' then .cons k v (.cons k' v' xs)
      else .cons k' v' (vmapInsSorted k v xs)

def vmapSortByKey : VMap → VMap
  | .nil => .nil
  | .cons k v xs => vmapInsSorted k v (vmapSortByKey xs)

mutual
/-- `sort_dict_deep`: recursively sort dictionary keys.  (The source sorts
the items and then recurses into the values; recursing first and then
sorting produces the same dict since sorting only permutes bindings.) -/
def sort_dict_deep : Val → Val
  | vMap m => vMap (vmapSortByKey (sortDDMap m))
  | vList l => vList (sortDDList l)
  | v => v
def sortDDList : VList → VList
  | .nil => .nil
  | .cons x xs => .cons (sort_dict_deep x) (sortDDList xs)
def sortDDMap : VMap → VMap
  | .nil => .nil
  | .cons k v xs => .cons k (sort_dict_deep v) (sortDDMap xs)
end

/-! ### `compare_manifests.py`: path extraction -/

def isWordChar (c : Char) : Bool := c.isAlphanum || c = '_'

/-- `re.match(r'(\w+)\[(\d+)\]', part)`: a *prefix* match — any trailing
junk after the `]` is ignored, exactly as `re.match` ignores it. -/
def parseIndexed (cs : List Char) : Option (String × Int) :=
  let w := cs.takeWhile isWordChar
  let rest := cs.drop w.length
  if w ≠ [] then
    match rest with
    | '[' :: r2 =>
        let d := r2.takeWhile Char.isDigit
        let r3 := r2.drop d.length
        if d ≠ [] then
          match r3 with
          | ']' :: _ => some (String.mk w, (d.foldl (fun a c => a * 10 + (c.toNat - '0'.toNat)) 0 : Nat))
          | _ => none
        else none
    | _ => none
  else none

/-- One path segment: `key[i]` (indexed access) or plain key access. -/
def navPart (v : Val) (part : String) : Res Val :=
  match parseIndexed part.data with
  | some (key, idx) => do
      let w ← vSub v key
      vSubIdx w idx
  | none => vSub v part

def navParts (v : Val) : List String → Res Val
  | [] => .ok v
  | p :: ps => do
      let v' ← navParts (← navPart v p) ps
      pure v'

/-- The trailing split operation `+(delim,i)`: `rsplit(delim, 1)` when
`delim` is `:` (right-most split), full `split(delim)` otherwise. -/
def applySplitOp (v : Val) (op : List Char) : Res Val := do
  match splitOnChar ',' op with
  | [d, i] => do
      let idx ← pyIntParse i
      let s ← (match v with
        | vStr s => Res.ok s
        | _ => Res.err .attr)
      let pieces ←
        if String.mk d = ":" then pure (rsplit1 d s.data)
        else if d = [] then Res.err .val
        else pure (splitSub d s.data)
      let piece ← pyIndexList pieces idx
      pure (vStr (String.mk piece))
  | _ => .err .val

/-- `get_value_from_path`: resolve a dotted/indexed path with an optional
trailing split operation (`path+(:,0)`).  A non-string path raises (the
mapper files always hold strings here). -/
def get_value_from_path (obj : Val) (path : Val) : Res Val := do
  let p ← (match path with
    | vStr s => Res.ok s
    | _ => Res.err .typ)
  let (base, op?) :=
    if hasSub "+(" p then
      let r := splitFirstSub "+(".data p.data
      (String.mk r.1, some (dropTrailing ')' r.2))
    else (p, none)
  let parts := (splitOnChar '.' base.data).map String.mk
  let v ← navParts obj parts
  match op? with
  | none => pure v
  | some op => applySplitOp v op

/-! ### `compare_manifests.py`: the comparator -/

/-- Set equality of key lists (Python `set(a) != set(b)`). -/
def setEqStrs (a b : List String) : Bool :=
  a.all (b.contains ·) && b.all (a.contains ·)

/-- Per-key comparison loop of `compare_configmap_data`: try to parse both
values as JSON and compare after deep key-sorting; on a decode error fall
back to comparing the raw values.  Returns the differing keys (the source
builds message lines from them; only emptiness is consumed by the caller). -/
def cmpDataKeys (hf : VMap) : VMap → Res (List String)
  | .nil => .ok []
  | .cons key kv rest => do
      let ks ← (match kv with
        | vStr s => Res.ok s
        | _ => Res.err .typ)
      let hv ← (match hf.lookup key with
        | some v => Res.ok v
        | none => Res.err .key)
      let here ← (match jsonLoads ks with
        | some kj => do
            let hs ← (match hv with
              | vStr s => Res.ok s
              | _ => Res.err .typ)
            match jsonLoads hs with
            | some hj =>
                pure (if pyEq (sort_dict_deep kj) (sort_dict_deep hj) then [] else ["data." ++ key])
            | none =>
                pure (if pyEq kv hv then [] else ["data." ++ key ++ " (string)"])
        | none =>
            pure (if pyEq kv hv then [] else ["data." ++ key ++ " (string)"]))
      let more ← cmpDataKeys hf rest
      pure (here ++ more)

/-- `compare_configmap_data`: compare ConfigMap `data` fields, ignoring the
`_example` key on both sides. -/
def compare_configmap_data (kustomize_cm helm_cm : Val) : Res (Bool × String) := do
  let k_data ← pyGet kustomize_cm "data" (vMap .nil)
  let h_data ← pyGet helm_cm "data" (vMap .nil)
  let kdm ← expectMap k_data .attr
  let hdm ← expectMap h_data .attr
  let kf := kdm.filterOut "_example"
  let hf := hdm.filterOut "_example"
  if ¬ setEqStrs (dedupFirst kf.keys) (dedupFirst hf.keys) then
    pure (false, "Keys differ")
  else do
    let diffs ← cmpDataKeys hf kf
    if diffs ≠ [] then pure (false, "Data fields differ")
    else pure (true, "All data fields match")

/-- Iteration (`for x in v`): list elements, dict keys, string characters;
`TypeError` otherwise. -/
def pyIter (v : Val) : Res (List Val) :=
  match v with
  | vList l => .ok l.toList
  | vMap m => .ok (m.keys.map vStr)
  | vStr s => .ok (s.data.map (fun c => vStr (String.mk [c])))
  | _ => .err .typ

def scanRuntimes (kind name : Val) : List Val → Res (Option Val)
  | [] => .ok none
  | r :: rest => do
      let n ← pyGet r "name" vNull
      if pyEq n name then do
        let k ← pyGet r "kind" (vStr "ClusterServingRuntime")
        if pyEq k kind then pure (some r) else scanRuntimes kind name rest
      else scanRuntimes kind name rest

/-- The component scan of `find_mapper_config_for_resource`: check
`controllerManager` (default kind `Deployment`) and `nodeAgent` (default
kind `DaemonSet`) under each of the component keys. -/
def scanComps (mapper kind name : Val) : List String → Res (Option Val)
  | [] => .ok none
  | ck :: cks => do
      let hasCk ← pyIn ck mapper
      if hasCk then do
        let comp ← vSub mapper ck
        let hasCM ← pyIn "controllerManager" comp
        let r1 ← (if hasCM then do
            let cm ← vSub comp "controllerManager"
            let n ← pyGet cm "name" vNull
            if pyEq n name then do
              let k ← pyGet cm "kind" (vStr "Deployment")
              if pyEq k kind then pure (some cm) else pure none
            else pure none
          else pure none)
        match r1 with
        | some c => pure (some c)
        | none => do
            let hasNA ← pyIn "nodeAgent" comp
            let r2 ← (if hasNA then do
                let na ← vSub comp "nodeAgent"
                let n ← pyGet na "name" vNull
                if pyEq n name then do
                  let k ← pyGet na "kind" (vStr "DaemonSet")
                  if pyEq k kind then pure (some na) else pure none
                else pure none
              else pure none)
            match r2 with
            | some c => pure (some c)
            | none => scanComps mapper kind name cks
      else scanComps mapper kind name cks

def findMapperGo (kind name : Val) : List (String × Val) → Res (Option Val)
  | [] => .ok none
  | (_, mapper) :: rest => do
      let hasR ← pyIn "runtimes" mapper
      let hasCSR ← if hasR then pure true else pyIn "clusterServingRuntimes" mapper
      let r1 ← (if hasR ∨ hasCSR then do
          let rk := if hasR then "runtimes" else "clusterServingRuntimes"
          let sub ← pyGet mapper rk (vMap .nil)
          let rl ← pyGet sub "runtimes" (vList .nil)
          let items ← pyIter rl
          scanRuntimes kind name items
        else pure none)
      match r1 with
      | some c => pure (some c)
      | none => do
          let r2 ← scanComps mapper kind name ["kserve", "llmisvc", "localmodel"]
          match r2 with
          | some c => pure (some c)
          | none => findMapperGo kind name rest

/-- `find_mapper_config_for_resource`: locate the mapper entry matching a
resource by kind and name. -/
def find_mapper_config_for_resource (mappers : List (String × Val)) (resource : Val) :
    Res (Option Val) := do
  let kind ← pyGet resource "kind" vNull
  let md ← pyGet resource "metadata" (vMap .nil)
  let name ← pyGet md "name" (vStr "")
  findMapperGo kind name mappers

/-- The exception classes caught by `compare_mapped_fields`'s
`except (KeyError, IndexError, TypeError)` clauses. -/
def caughtByMapped (e : PyErr) : Bool :=
  e = .key ∨ e = .idx ∨ e = .typ

/-- One mapped-field comparison of `compare_mapped_fields`: a caught path
error is recorded as a difference, anything else propagates.  The Kustomize
side is evaluated first, as in the source. -/
def cmpPathField (k_res h_res path : Val) (label : String) : Res (List String) :=
  match get_value_from_path k_res path with
  | .err e => if caughtByMapped e then .ok [label ++ ": path error"] else .err e
  | .ok kv =>
      match get_value_from_path h_res path with
      | .err e => if caughtByMapped e then .ok [label ++ ": path error"] else .err e
      | .ok hv => .ok (if pyEq kv hv then [] else [label ++ ": differs"])

/-- `compare_mapped_fields`: compare only the fields the mapper declares
(image repository, image tag, resource quotas). -/
def compare_mapped_fields (k_res h_res mapper_config : Val) : Res (Bool × List String) := do
  let hasImg ← pyIn "image" mapper_config
  let diffsImg ← (if hasImg then do
      let img ← vSub mapper_config "image"
      let hasRepo ← pyIn "repository" img
      let d1 ← (if hasRepo then do
          let repo ← vSub img "repository"
          let hasPath ← pyIn "path" repo
          if hasPath then do
            let path ← vSub repo "path"
            cmpPathField k_res h_res path "image.repository"
          else pure []
        else pure [])
      let hasTag ← pyIn "tag" img
      let d2 ← (if hasTag then do
          let tag ← vSub img "tag"
          let hasPath ← pyIn "path" tag
          if hasPath then do
            let path ← vSub tag "path"
            cmpPathField k_res h_res path "image.tag"
          else pure []
        else pure [])
      pure (d1 ++ d2)
    else pure [])
  let hasRes ← pyIn "resources" mapper_config
  let diffsRes ← (if hasRes then do
      let rc ← vSub mapper_config "resources"
      match rc with
      | vMap _ => do
          let hasPath ← pyIn "path" rc
          if hasPath then do
            let path ← vSub rc "path"
            cmpPathField k_res h_res path "resources"
          else pure []
      | _ => pure []
    else pure [])
  let diffs := diffsImg ++ diffsRes
  pure (if diffs ≠ [] then (false, diffs) else (true, diffs))

/-- The structured content of the comparison report: everything
`compare_resources` prints is a function of these fields. -/
structure Report where
  testName : String
  kustomizeCount : Nat
  helmCount : Nat
  namespaceOnly : List String
  otherOnlyKustomize : List String
  onlyInHelm : List String
  commonCount : Nat
  criticalDiffs : List String
  minorDiffs : List String
  deriving DecidableEq, Repr

/-- `[d for d in docs if d.get('kind') != 'CustomResourceDefinition']`. -/
def filterCRDs : List Val → Res (List Val)
  | [] => .ok []
  | d :: ds => do
      let k ← pyGet d "kind" vNull
      let rest ← filterCRDs ds
      pure (if pyEq k (vStr "CustomResourceDefinition") then rest else d :: rest)

def keysOf : List Val → Res (List String)
  | [] => .ok []
  | d :: ds => do
      let k ← get_resource_key d
      let rest ← keysOf ds
      pure (k :: rest)

def normsOf : List Val → Res (List Val)
  | [] => .ok []
  | d :: ds => do
      let n ← normalize_resource d
      let rest ← normsOf ds
      pure (n :: rest)

/-- First document with the given key (`next(r for r in docs if ...)`).
The `.err .val` branch models `StopIteration` and is unreachable for keys
taken from the index. -/
def firstWithKey (pairs : List (String × Val)) (key : String) : Res Val :=
  match pairs with
  | [] => .err .val
  | (k, v) :: rest => if k = key then .ok v else firstWithKey rest key

/-- Last binding of a key (a dict comprehension keeps the last value for a
repeated key). -/
def lookupLast (pairs : List (String × Val)) (key : String) : Res Val :=
  match pairs with
  | [] => .err .val
  | (k, v) :: rest =>
      match lookupLast rest key with
      | .ok w => .ok w
      | .err _ => if k = key then .ok v else .err .val

/-- Mutable state of the common-resource loop.  `success` is the *same*
variable the one-sided checks already assigned — the loop's assignments
overwrite it, exactly as in the source. -/
structure LoopSt where
  success : Bool
  critical : List String
  minor : List String
  deriving DecidableEq, Repr

/-- `mapper_config = None; if mappers: mapper_config = find_mapper_config_for_resource(...)`
(a Python list is truthy iff nonempty). -/
def mapperFor (mappers : Option (List (String × Val))) (d : Val) : Res (Option Val) :=
  match mappers with
  | some ms => if ms ≠ [] then find_mapper_config_for_resource ms d else pure none
  | none => pure none

def processKey (kpairs hpairs knpairs hnpairs : List (String × Val))
    (mappers : Option (List (String × Val))) (st : LoopSt) (key : String) : Res LoopSt := do
  let k_orig ← firstWithKey kpairs key
  let h_orig ← firstWithKey hpairs key
  if key = "ConfigMap/kserve/inferenceservice-config" then do
    let r ← compare_configmap_data k_orig h_orig
    pure { st with success := r.1,
                   critical := if r.1 then st.critical else st.critical ++ [key] }
  else do
    let mcfg ← mapperFor mappers k_orig
    match mcfg with
    | some cfg => do
        let r ← compare_mapped_fields k_orig h_orig cfg
        pure { st with success := r.1,
                       critical := if r.1 then st.critical else st.critical ++ [key] }
    | none => do
        let k_n ← lookupLast knpairs key
        let h_n ← lookupLast hnpairs key
        if ¬ pyEq k_orig h_orig then
          if pyEq k_n h_n then pure { st with minor := st.minor ++ [key] }
          else pure { st with critical := st.critical ++ [key] }
        else pure st

def processKeys (kpairs hpairs knpairs hnpairs : List (String × Val))
    (mappers : Option (List (String × Val))) (st : LoopSt) : List String → Res LoopSt
  | [] => .ok st
  | key :: rest => do
      let st' ← processKey kpairs hpairs knpairs hnpairs mappers st key
      processKeys kpairs hpairs knpairs hnpairs mappers st' rest

/-- `compare_resources`: compare two manifest sets and return the verdict
together with the structured report content. -/
def compare_resources (kustomize_docs helm_docs : List Val) (test_name : String)
    (mappers : Option (List (String × Val)) := none) (exclude_crds : Bool := true) :
    Res (Bool × Report) := do
  let kdocs ← if exclude_crds then filterCRDs kustomize_docs else pure kustomize_docs
  let hdocs ← if exclude_crds then filterCRDs helm_docs else pure helm_docs
  let kkeys ← keysOf kdocs
  let knorms ← normsOf kdocs
  let hkeys ← keysOf hdocs
  let hnorms ← normsOf hdocs
  let kset := dedupFirst kkeys
  let hset := dedupFirst hkeys
  let only_k := kset.filter (fun k => ¬ hset.contains k)
  let only_h := hset.filter (fun k => ¬ kset.contains k)
  let common := kset.filter (fun k => hset.contains k)
  let namespace_only := only_k.filter (fun k => strStarts "Namespace/" k)
  let other_only_k := only_k.filter (fun k => ¬ strStarts "Namespace/" k)
  let success1 := if other_only_k ≠ [] then false else true
  let success2 := if only_h ≠ [] then false else success1
  let st ← processKeys (kkeys.zip kdocs) (hkeys.zip hdocs) (kkeys.zip knorms)
      (hkeys.zip hnorms) mappers ⟨success2, [], []⟩ (sortStrs common)
  let finalSuccess := if st.critical ≠ [] then false else st.success
  pure (finalSuccess,
    { testName := test_name
      kustomizeCount := kdocs.length
      helmCount := hdocs.length
      namespaceOnly := sortStrs namespace_only
      otherOnlyKustomize := sortStrs other_only_k
      onlyInHelm := sortStrs only_h
      commonCount := common.length
      criticalDiffs := st.critical
      minorDiffs := st.minor })

/-! ### `generators/workload_generator.py` -/

def spaces (n : Nat) : String := String.mk (List.replicate n ' ')

def yScalar : Val → String
  | vNull => "null"
  | vBool b => if b then "true" else "false"
  | vInt n => intStr n
  | vFloat ip f => floatStr ip f
  | vStr s => s
  | vMap m => "\x7b" ++ pyReprMap m ++ "\x7d"
  | vList l => "[" ++ pyReprList l ++ "]"

mutual
/-- Modelled from the spec: `generators/utils.py` (absent from `src/`)
provides `yaml_to_string`, which serializes a sub-document as indented
YAML text (§4.2: "serialize the entire document using the target
structural-text format").  Rendering fidelity is immaterial to the
theorems below (they never inspect its output). -/
def yaml_to_string (v : Val) (indent : Nat) : String :=
  match v with
  | vMap m => ymapStr m indent
  | vList l => ylistStr l indent
  | w => spaces indent ++ yScalar w
def ymapStr : VMap → Nat → String
  | .nil, _ => ""
  | .cons k v .nil, ind => yEntry k v ind
  | .cons k v rest, ind => yEntry k v ind ++ "\n" ++ ymapStr rest ind
def yEntry (k : String) (v : Val) (ind : Nat) : String :=
  match v with
  | vMap .nil => spaces ind ++ k ++ ": \x7b\x7d"
  | vList .nil => spaces ind ++ k ++ ": []"
  | vMap m => spaces ind ++ k ++ ":\n" ++ ymapStr m (ind + 2)
  | vList l => spaces ind ++ k ++ ":\n" ++ ylistStr l (ind + 2)
  | w => spaces ind ++ k ++ ": " ++ yScalar w
def ylistStr : VList → Nat → String
  | .nil, _ => ""
  | .cons v .nil, ind => spaces ind ++ "- " ++ yScalar v
  | .cons v rest, ind => spaces ind ++ "- " ++ yScalar v ++ "\n" ++ ylistStr rest ind
end

/-- The rendered `TEMPLATE_TYPES['configurable']` pattern: a `with`-guarded
block that is suppressed entirely when the parameter value is empty. -/
def templateConfigurable (valuePath fieldName indent : String) : String :=
  "      \x7b\x7b- with .Values." ++ valuePath ++ " \x7d\x7d\n      " ++ fieldName ++
    ":\n        \x7b\x7b- toYaml . | nindent " ++ indent ++ " \x7d\x7d\n      \x7b\x7b- end \x7d\x7d\n"

/-- `TemplateRenderer.render_field`. -/
def render_field (field_name : String) (field_config : Val) (default_indent : Nat)
    (static_value : Option Val) : Res String := do
  let template_meta ← pyGet field_config "template" (vMap .nil)
  let _template_type ← pyGet template_meta "type" (vStr "configurable")
  let hasVP ← pyIn "valuePath" field_config
  if hasVP then do
    let vp ← vSub field_config "valuePath"
    let ci ← pyGet template_meta "indent" (vInt (default_indent + 2))
    pure (templateConfigurable (pyStr vp) field_name (pyStr ci))
  else
    match static_value with
    | some sv => pure ("      " ++ field_name ++ ":\n" ++ yaml_to_string sv (default_indent + 2))
    | none => pure ""

/-- The always-unconditional rendering used for `affinity`/`tolerations`. -/
def unconditionalFieldLine (field_name valuePath : String) : String :=
  "      " ++ field_name ++ ": \x7b\x7b- toYaml .Values." ++ valuePath ++ " | nindent 8 \x7d\x7d"

/-- The templated `image:` line of the main container, with its three-level
tag fallback chain. -/
def imageFallbackLine (repoPath chartName tagPath : String) : String :=
  "        image: \"\x7b\x7b .Values." ++ repoPath ++ " \x7d\x7d:\x7b\x7b .Values.kserve.version | default .Values." ++
    chartName ++ ".version | default .Values." ++ tagPath ++ " \x7d\x7d\""

/-- `WorkloadGenerator._generate_container_spec`. -/
def generate_container_spec (container : Val) (is_main_container : Bool)
    (component_config : Val) (workload_type : String) : Res (List String) := do
  let name ← vSub container "name"
  let l0 := ["      - name: " ++ pyStr name]
  let hasImgCfg ← if is_main_container then pyIn "image" component_config else pure false
  let lImg ← (if is_main_container ∧ hasImgCfg then do
      let img ← vSub component_config "image"
      let repo ← vSub img "repository"
      let rvp ← vSub repo "valuePath"
      let tagc ← vSub img "tag"
      let tvp ← vSub tagc "valuePath"
      let tvpS ← (match tvp with
        | vStr s => Res.ok s
        | _ => Res.err .attr)
      let chart := String.mk (splitOnChar '.' tvpS.data).headI
      pure [imageFallbackLine (pyStr rvp) chart tvpS]
    else do
      let img ← vSub container "image"
      pure ["        image: \"" ++ pyStr img ++ "\""])
  let hasIPP ← pyIn "imagePullPolicy" container
  let lIPP ← (if hasIPP then do
      let hasImgCfg2 ← if is_main_container then pyIn "image" component_config else pure false
      let hasPP ← (if is_main_container ∧ hasImgCfg2 then do
          let img ← vSub component_config "image"
          pyIn "pullPolicy" img
        else pure false)
      if is_main_container ∧ hasImgCfg2 ∧ hasPP then do
        let img ← vSub component_config "image"
        let pp ← vSub img "pullPolicy"
        let pvp ← vSub pp "valuePath"
        pure ["        imagePullPolicy: \x7b\x7b .Values." ++ pyStr pvp ++ " \x7d\x7d"]
      else do
        let ipp ← vSub container "imagePullPolicy"
        pure ["        imagePullPolicy: " ++ pyStr ipp]
    else pure [])
  let hasCmd ← pyIn "command" container
  let lCmd ← (if hasCmd then do
      let cmd ← vSub container "command"
      let items ← pyIter cmd
      pure ("        command:" :: items.map (fun c => "        - " ++ pyStr c))
    else pure [])
  let hasArgs ← pyIn "args" container
  let lArgs ← (if workload_type = "deployment" ∧ hasArgs then do
      let args ← vSub container "args"
      let items ← pyIter args
      pure ("        args:" :: items.map (fun a => "        - " ++ pyStr a))
    else pure [])
  let hasSC ← pyIn "securityContext" container
  let lSC ← (if hasSC then do
      let sc ← vSub container "securityContext"
      pure ["        securityContext:", yaml_to_string sc 10]
    else pure [])
  let hasEnv ← pyIn "env" container
  let lEnv ← (if hasEnv then do
      let env ← vSub container "env"
      pure ["        env:", yaml_to_string env 10]
    else pure [])
  let hasPorts ← pyIn "ports" container
  let lPorts ← (if workload_type = "deployment" ∧ hasPorts then do
      let p ← vSub container "ports"
      pure ["        ports:", yaml_to_string p 10]
    else pure [])
  let hasLive ← pyIn "livenessProbe" container
  let lLive ← (if workload_type = "deployment" ∧ hasLive then do
      let p ← vSub container "livenessProbe"
      pure ["        livenessProbe:", yaml_to_string p 10]
    else pure [])
  let hasReady ← pyIn "readinessProbe" container
  let lReady ← (if workload_type = "deployment" ∧ hasReady then do
      let p ← vSub container "readinessProbe"
      pure ["        readinessProbe:", yaml_to_string p 10]
    else pure [])
  let hasResCfg ← if is_main_container then pyIn "resources" component_config else pure false
  let lRes ← (if is_main_container ∧ hasResCfg then do
      let rc ← vSub component_config "resources"
      let rvp ← vSub rc "valuePath"
      pure ["        resources: \x7b\x7b- toYaml .Values." ++ pyStr rvp ++ " | nindent 10 \x7d\x7d"]
    else do
      let hasRes ← pyIn "resources" container
      if hasRes then do
        let r ← vSub container "resources"
        pure ["        resources:", yaml_to_string r 10]
      else pure [])
  let hasVM ← pyIn "volumeMounts" container
  let lVM ← (if hasVM then do
      let vm ← vSub container "volumeMounts"
      pure ["        volumeMounts:", yaml_to_string vm 10]
    else pure [])
  pure (l0 ++ lImg ++ lIPP ++ lCmd ++ lArgs ++ lSC ++ lEnv ++ lPorts ++ lLive ++ lReady ++ lRes ++ lVM)

def containerLines (component_config : Val) (workload_type : String) :
    List Val → Res (List String)
  | [] => .ok []
  | c :: cs => do
      let nm ← vSub c "name"
      let spec ← generate_container_spec c (pyEq nm (vStr "manager")) component_config workload_type
      let rest ← containerLines component_config workload_type cs
      pure (strJoin "\n" spec :: rest)

/-- The static (`not in mapper`) emission of a pod-spec field: complex
values as an indented block, scalars inline (booleans lowercased). -/
def staticFieldLines (field_name : String) (field_value : Val) : List String :=
  match field_value with
  | vMap _ => ["      " ++ field_name ++ ":", yaml_to_string field_value 8]
  | vList _ => ["      " ++ field_name ++ ":", yaml_to_string field_value 8]
  | vBool b => ["      " ++ field_name ++ ": " ++ (if b then "true" else "false")]
  | v => ["      " ++ field_name ++ ": " ++ pyStr v]

/-- The body of `_generate_pod_spec_fields`'s loop for one pod-spec field.
`affinity`/`tolerations` with a mapper entry render unconditionally; other
mapped fields render through the `with`-guarded configurable template;
unmapped fields are emitted statically. -/
def renderPodField (component_config : Val) (workload_type : String)
    (field_name : String) (field_value : Val) : Res (List String) := do
  if field_name = "containers" then do
    let cl ← (match field_value with
      | vList l => Res.ok l.toList
      | v => pyIter v)
    let cls ← containerLines component_config workload_type cl
    pure ("      containers:" :: cls)
  else do
    let hasF ← pyIn field_name component_config
    let mapped ← (if hasF then do
        let fc ← vSub component_config field_name
        match fc with
        | vMap _ => do
            let hasVP ← pyIn "valuePath" fc
            pure (if hasVP then some fc else none)
        | _ => pure none
      else pure none)
    match mapped with
    | some fc =>
        if field_name = "affinity" ∨ field_name = "tolerations" then do
          let vp ← vSub fc "valuePath"
          pure [unconditionalFieldLine field_name (pyStr vp)]
        else do
          let r ← render_field field_name fc 6 none
          pure [r]
    | none => pure (staticFieldLines field_name field_value)

def podFieldLines (component_config : Val) (workload_type : String) :
    VMap → Res (List String)
  | .nil => .ok []
  | .cons f v rest => do
      let here ← renderPodField component_config workload_type f v
      let more ← podFieldLines component_config workload_type rest
      pure (here ++ more)

/-- `WorkloadGenerator._generate_pod_spec_fields`. -/
def generate_pod_spec_fields (pod_spec : VMap) (component_config : Val)
    (workload_type : String) : Res String := do
  let lines ← podFieldLines component_config workload_type pod_spec
  pure (strJoin "\n" lines)

/-! ### Escaping of foreign (Go) template expressions
(`chart_generator.py: _escape_go_templates_in_resource`) -/

/-- Fuel-driven core of Python `str.replace` (leftmost, non-overlapping;
never called with an empty pattern). -/
def pyReplaceGo (pat repl : List Char) : Nat → List Char → List Char
  | 0, s => s
  | _ + 1, [] => []
  | fuel + 1, c :: t =>
      if pat ≠ [] ∧ pat.isPrefixOf (c :: t) then
        repl ++ pyReplaceGo pat repl fuel ((c :: t).drop pat.length)
      else c :: pyReplaceGo pat repl fuel t

/-- Python `s.replace(pat, repl)` for a non-empty pattern. -/
def pyReplace (pat repl s : List Char) : List Char := pyReplaceGo pat repl s.length s

def helmOpenMark : List Char := "__HELM_OPEN__".data

def helmCloseMark : List Char := "__HELM_CLOSE__".data

def openDelim : List Char := "\x7b\x7b".data

def closeDelim : List Char := "\x7d\x7d".data

/-- The emitted literal-`openDelim` Helm expression. -/
def emitOpenExpr : List Char := "\x7b\x7b \"\x7b\x7b\" \x7d\x7d".data

/-- The emitted literal-`closeDelim` Helm expression. -/
def emitCloseExpr : List Char := "\x7b\x7b \"\x7d\x7d\" \x7d\x7d".data

/-- The string case of `_escape_go_templates_in_resource`: two-step
placeholder substitution of the outer delimiters. -/
def escapeGoChars (s : List Char) : List Char :=
  pyReplace helmCloseMark emitCloseExpr
    (pyReplace helmOpenMark emitOpenExpr
      (pyReplace closeDelim helmCloseMark
        (pyReplace openDelim helmOpenMark s)))

/-- `_escape_go_templates_in_resource` on one string value: the escaped
text, paired with whether it is wrapped in `LiteralString` (re-emitted as
a YAML literal block scalar) — exactly when it contains a newline. -/
def escape_go_str (s : String) : String × Bool :=
  let r := escapeGoChars s.data
  (String.mk r, r.contains '\n')

mutual
/-- `_escape_go_templates_in_resource`: recursively escape Go template
expressions in every string of a resource (the `LiteralString` wrapper of
multiline results is tracked by `escape_go_str`). -/
def escape_go_templates_in_resource : Val → Val
  | vStr s => vStr (escape_go_str s).1
  | vMap m => vMap (escGoMap m)
  | vList l => vList (escGoList l)
  | v => v
def escGoList : VList → VList
  | .nil => .nil
  | .cons x xs => .cons (escape_go_templates_in_resource x) (escGoList xs)
def escGoMap : VMap → VMap
  | .nil => .nil
  | .cons k v xs => .cons k (escape_go_templates_in_resource v) (escGoMap xs)
end

/-- Modelled from the spec: the unescaping direction is Helm's template
evaluation (not part of this repository) — "evaluating those expressions
recovers the original string" (§4.2).  Each emit-literal expression
evaluates to the delimiter it quotes; all other text is emitted verbatim,
scanning left to right as Helm's parser does. -/
def unescapeGoGo : Nat → List Char → List Char
  | 0, s => s
  | _ + 1, [] => []
  | fuel + 1, c :: t =>
      if emitOpenExpr.isPrefixOf (c :: t) then
        openDelim ++ unescapeGoGo fuel ((c :: t).drop emitOpenExpr.length)
      else if emitCloseExpr.isPrefixOf (c :: t) then
        closeDelim ++ unescapeGoGo fuel ((c :: t).drop emitCloseExpr.length)
      else c :: unescapeGoGo fuel t

def unescapeGo (s : List Char) : List Char := unescapeGoGo s.length s

/-! ### `values_generator/component_builder.py`: image defaults -/

/-- Modelled from the spec: `values_generator/path_extractor.py` is not in
`src/`; §4.1 specifies a single path-extractor contract
(`resolve(document, pathExpression)`) with the same dotted/indexed grammar
and trailing split operation that `get_value_from_path` implements, so the
missing extractor is modelled by that same resolution function. -/
def extract_from_manifest (manifest : Val) (path : Val) : Res Val :=
  get_value_from_path manifest path

/-- The hardcoded-repository fallback:
`manifest['spec']['template']['spec']['containers'][0]['image']`, then
everything before the last `:` (or the whole image without one). -/
def fallbackImage (manifest : Val) : Res Val := do
  let spec ← vSub manifest "spec"
  let tmpl ← vSub spec "template"
  let s2 ← vSub tmpl "spec"
  let cs ← vSub s2 "containers"
  let c0 ← vSubIdx cs 0
  vSub c0 "image"

def fallbackRepo (manifest : Val) : Res Val := do
  let img ← fallbackImage manifest
  match img with
  | vStr s =>
      pure (vStr (if hasSub ":" s then String.mk (rsplit1 [':'] s.data).headI else s))
  | _ => .err .typ

def fallbackTag (manifest : Val) : Res Val := do
  let img ← fallbackImage manifest
  match img with
  | vStr s =>
      if hasSub ":" s then
        match rsplit1 [':'] s.data with
        | [_, after] => pure (vStr (String.mk after))
        | _ => .err .idx
      else pure (vStr "latest")
  | _ => .err .typ

def fallbackPullPolicy (manifest : Val) : Res Val := do
  let spec ← vSub manifest "spec"
  let tmpl ← vSub spec "template"
  let s2 ← vSub tmpl "spec"
  let cs ← vSub s2 "containers"
  let c0 ← vSubIdx cs 0
  pyGet c0 "imagePullPolicy" (vStr "Always")

/-- Exception classes caught by the builder's
`except (KeyError, IndexError, ValueError)` clauses. -/
def caughtByBuilder (e : PyErr) : Bool :=
  e = .key ∨ e = .idx ∨ e = .val

def addIfTruthy (m : VMap) (k : String) (o : Option Val) : VMap :=
  match o with
  | some v => if pyTruthy v then m.set k v else m
  | none => m

/-- `ComponentBuilder._extract_image_values`: extract repository, tag and
pullPolicy defaults from the rendered manifest.  The instance-level
`version_anchor_fields` accumulator is modelled by threading the list
through and returning it. -/
def extract_image_values (img_config manifest : Val) (component_name key_name : String)
    (mapping : Val) (version_anchor_fields : List String) : Res (Val × List String) := do
  let hasRepo ← pyIn "repository" img_config
  let repository ← (if hasRepo then do
      let rc ← vSub img_config "repository"
      let hasPath ← pyIn "path" rc
      if hasPath then do
        let p ← vSub rc "path"
        let r ← (extract_from_manifest manifest p).catch (fun e =>
          if caughtByBuilder e then fallbackRepo manifest else .err e)
        pure (some r)
      else do
        let r ← fallbackRepo manifest
        pure (some r)
    else pure none)
  let hasTag ← pyIn "tag" img_config
  let tagAndAnchors ← (if hasTag then do
      let tc ← vSub img_config "tag"
      let hasPath ← pyIn "path" tc
      let tagv ← (if hasPath then do
          let p ← vSub tc "path"
          ((do
            let t ← extract_from_manifest manifest p
            let mdm ← vSub mapping "metadata"
            let cv ← pyGet mdm "appVersion" (vStr "latest")
            if ¬ pyEq cv (vStr "latest") then do
              let hasLatest ← pyIn "latest" t
              if hasLatest then do
                let ts ← (match t with
                  | vStr s => Res.ok s
                  | _ => Res.err .attr)
                let cs ← (match cv with
                  | vStr s => Res.ok s
                  | _ => Res.err .typ)
                pure (vStr (String.mk (pyReplace "latest".data cs.data ts.data)))
              else pure t
            else pure t : Res Val)).catch (fun e =>
              if e = .idx then pure (vStr "latest")
              else if e = .key ∨ e = .val then fallbackTag manifest
              else .err e)
        else fallbackTag manifest)
      let uva ← pyGet tc "useVersionAnchor" (vBool false)
      let anchors :=
        if pyTruthy uva then
          version_anchor_fields ++ [component_name ++ "." ++ key_name ++ ".tag"]
        else version_anchor_fields
      pure (some tagv, anchors)
    else pure (none, version_anchor_fields))
  let hasPP ← pyIn "pullPolicy" img_config
  let pull_policy ← (if hasPP then do
      let pc ← vSub img_config "pullPolicy"
      let hasPath ← pyIn "path" pc
      if hasPath then do
        let p ← vSub pc "path"
        let r ← (extract_from_manifest manifest p).catch (fun e =>
          if caughtByBuilder e then fallbackPullPolicy manifest else .err e)
        pure (some r)
      else do
        let r ← fallbackPullPolicy manifest
        pure (some r)
    else pure none)
  let rpc ← pyGet img_config "repository" (vMap .nil)
  let rp ← pyGet rpc "valuePath" (vStr "")
  let isFlat ← (if ¬ pyTruthy rp then pure false
    else match rp with
      | vStr s => Res.ok (countChar '.' s.data = 2)
      | _ => Res.err .attr)
  let values : VMap :=
    if isFlat then
      addIfTruthy (addIfTruthy (addIfTruthy .nil "image" repository) "tag" tagAndAnchors.1)
        "imagePullPolicy" pull_policy
    else
      VMap.nil.set "image" (vMap
        (addIfTruthy (addIfTruthy (addIfTruthy .nil "repository" repository) "tag" tagAndAnchors.1)
          "pullPolicy" pull_policy))
  pure (vMap values, tagAndAnchors.2)

/-! ### Well-formedness of model values

`wfValB` captures the invariants every value produced by `yaml.safe_load`
from a real document enjoys: dict keys are unique (Python dicts cannot hold
a key twice) and float fraction strings are digit strings.  Python `==` is
reflexive on such values. -/

def countKey : VMap → String → Nat
  | .nil, _ => 0
  | .cons k _ t, key => (if k = key then 1 else 0) + countKey t key

def nodupKeysB : VMap → Bool
  | .nil => true
  | .cons k _ t => !t.hasKey k && nodupKeysB t

mutual
def wfValB : Val → Bool
  | vFloat _ f => (fracDigitsVal f.data).isSome
  | vList l => wfVListB l
  | vMap m => nodupKeysB m && wfVMapB m
  | _ => true
def wfVListB : VList → Bool
  | .nil => true
  | .cons x xs => wfValB x && wfVListB xs
def wfVMapB : VMap → Bool
  | .nil => true
  | .cons _ v t => wfValB v && wfVMapB t
end

/-- A mapper entry is well-shaped for a document and its declared field
paths resolve (to well-formed values) against that document.  Under this
condition `compare_mapped_fields d d cfg` reports no difference. -/
def pathRes (d p : Val) : Bool :=
  match get_value_from_path d p with
  | .ok v => wfValB v
  | .err _ => false

def imgFieldOk (d : Val) : Option Val → Bool
  | none => true
  | some (vMap rm) =>
      (match rm.lookup "path" with
       | none => true
       | some p => pathRes d p)
  | some _ => false

def mapperEntryPathsOk (cfg d : Val) : Bool :=
  match cfg with
  | vMap m =>
      (match m.lookup "image" with
       | none => true
       | some (vMap im) => imgFieldOk d (im.lookup "repository") && imgFieldOk d (im.lookup "tag")
       | some _ => false) &&
      (match m.lookup "resources" with
       | none => true
       | some (vMap rm) =>
           (match rm.lookup "path" with
            | none => true
            | some p => pathRes d p)
       | some _ => true)
  | _ => false

/-- The mapper lookup for `d` neither raises nor yields an entry with
unresolvable paths. -/
def mapperSelfOk (ms : List (String × Val)) (d : Val) : Bool :=
  match find_mapper_config_for_resource ms d with
  | .ok none => true
  | .ok (some cfg) => mapperEntryPathsOk cfg d
  | .err _ => false

/-- Two label dicts with the same keys in the same order whose values agree
after number-to-string normalization. -/
def normRelB : VMap → VMap → Bool
  | .nil, .nil => true
  | .cons k1 v1 t1, .cons k2 v2 t2 =>
      k1 = k2 && normalize_labels_annotations v1 = normalize_labels_annotations v2
        && normRelB t1 t2
  | _, _ => false

/-- Every binding of the second map is found (with the same value) by a
lookup in the first. -/
def subLookupB (b : VMap) : VMap → Bool
  | .nil => true
  | .cons k v t =>
      (match b.lookup k with
       | some w => w == v
       | none => false) && subLookupB b t

/-- Config-data map whose bindings self-compare in `cmpDataKeys` against
the lookup map `b`: string values found by lookup, with a well-formed
deep-sorted JSON parse when the value parses. -/
def dataSelfOkB (b : VMap) : VMap → Bool
  | .nil => true
  | .cons k v t =>
      (match v with
       | vStr s =>
           (match b.lookup k with
            | some w => w == vStr s
            | none => false) &&
           (match jsonLoads s with
            | some x => wfValB (sort_dict_deep x)
            | none => true)
       | _ => false) && dataSelfOkB b t

/-- Well-formed document for self-comparison: a dict whose `data` field,
when present, is a config-data dict that self-compares after the
`_example` filter. -/
def docDataWfB (d : Val) : Bool :=
  match d with
  | vMap m =>
      (match m.lookup "data" with
       | some (vMap dm) =>
           dataSelfOkB (dm.filterOut "_example") (dm.filterOut "_example")
       | some _ => false
       | none => true)
  | _ => false

/-- Per-key self-comparison condition of the common-resource loop: the key
resolves in the (zipped) document and normalized-document indexes, the
document is well-formed, the special ConfigMap key has self-comparing
data, and the mapper lookup for the document neither raises nor yields
unresolvable paths. -/
def selfKeyOkB (pairs npairs : List (String × Val))
    (ms : Option (List (String × Val))) (key : String) : Bool :=
  match firstWithKey pairs key, lookupLast npairs key with
  | .ok d, .ok _ =>
      wfValB d &&
      (if key = "ConfigMap/kserve/inferenceservice-config" then docDataWfB d else true) &&
      (match ms with
       | some l => if l ≠ [] then mapperSelfOk l d else true
       | none => true)
  | _, _ => false

/-! ### Tokenization of the outer-delimiter structure (proof device for the
escaping round-trip) -/

inductive Tok where
  | op
  | cl
  | chr (c : Char)
  deriving DecidableEq, Repr

/-- Group the outer delimiters `openDelim`/`closeDelim` left to right. -/
def toks : List Char → List Tok
  | [] => []
  | [a] => [.chr a]
  | a :: b :: r =>
      if a = '\x7b' ∧ b = '\x7b' then .op :: toks r
      else if a = '\x7d' ∧ b = '\x7d' then .cl :: toks r
      else .chr a :: toks (b :: r)

def emitWith (fop fcl : List Char) : List Tok → List Char
  | [] => []
  | .op :: ts => fop ++ emitWith fop fcl ts
  | .cl :: ts => fcl ++ emitWith fop fcl ts
  | .chr c :: ts => c :: emitWith fop fcl ts

def helmWord : List Char := "HELM".data

/-! ### Concrete documents used for counterexamples and witnesses -/

def infCfgMap : Val := vMap (VMap.ofList [
  ("kind", vStr "ConfigMap"),
  ("metadata", vMap (VMap.ofList [("name", vStr "inferenceservice-config"),
                                  ("namespace", vStr "kserve")])),
  ("data", vMap (VMap.ofList [("ingress", vStr "x")]))])

def strayDeployment : Val := vMap (VMap.ofList [
  ("kind", vStr "Deployment"),
  ("metadata", vMap (VMap.ofList [("name", vStr "stray-controller")]))])

def strayService : Val := vMap (VMap.ofList [
  ("kind", vStr "Service"),
  ("metadata", vMap (VMap.ofList [("name", vStr "stray-webhook")]))])

def ctrlNoImageDoc : Val := vMap (VMap.ofList [
  ("kind", vStr "Deployment"),
  ("metadata", vMap (VMap.ofList [("name", vStr "kserve-controller-manager")])),
  ("spec", vMap (VMap.ofList [("replicas", vInt 1)]))])

def badPathMappers : List (String × Val) := [("helm-mapping-kserve", vMap (VMap.ofList [
  ("kserve", vMap (VMap.ofList [
    ("controllerManager", vMap (VMap.ofList [
      ("name", vStr "kserve-controller-manager"),
      ("image", vMap (VMap.ofList [
        ("repository", vMap (VMap.ofList [("path", vStr "spec.nope")]))]))]))]))]))]

/-- A single-resource document whose only interesting part is one label. -/
def mkLabeledDoc (kind name k : String) (v : Val) (extra : VMap) : Val :=
  vMap (VMap.ofList [
    ("kind", vStr kind),
    ("metadata", vMap (VMap.ofList [
      ("name", vStr name),
      ("labels", vMap (.cons k v extra))]))])

def sampleDeployment : Val := vMap (VMap.ofList [
  ("kind", vStr "Deployment"),
  ("metadata", vMap (VMap.ofList [("name", vStr "ctl")])),
  ("spec", vMap (VMap.ofList [
    ("template", vMap (VMap.ofList [
      ("spec", vMap (VMap.ofList [
        ("containers", vList (VList.ofList [
          vMap (VMap.ofList [("name", vStr "manager"),
                             ("image", vStr "registry.io/ctl:v1.2.3")])]))]))]))]))])

def sampleImgConfig : Val := vMap (VMap.ofList [
  ("repository", vMap (VMap.ofList [
    ("path", vStr "spec.template.spec.containers[0].image+(:,0)"),
    ("valuePath", vStr "ctl.repo")])),
  ("tag", vMap (VMap.ofList [
    ("path", vStr "spec.template.spec.containers[0].image+(:,1)"),
    ("valuePath", vStr "ctl.tag")]))])

def sampleMapping : Val := vMap (VMap.ofList [
  ("metadata", vMap (VMap.ofList [("name", vStr "kserve-resources")]))])

/-! ## Theorems -/

@[simp]
theorem Res.bind_ok {α β : Type} (a : α) (f : α → Res β) : (Res.ok a >>= f) = f a := rfl

@[simp]
theorem Res.bind_err {α β : Type} (e : PyErr) (f : α → Res β) :
    ((Res.err e : Res α) >>= f) = .err e := rfl

@[simp]
theorem Res.pure_eq {α : Type} (a : α) : (pure a : Res α) = .ok a := rfl

theorem Res.bind_eq_ok {α β : Type} {r : Res α} {f : α → Res β} {c : β} :
    (r >>= f) = .ok c ↔ ∃ b, r = .ok b ∧ f b = .ok c := by
  cases r with
  | ok a => simp
  | err e => simp

/-- C1: the claim states the run passes iff there are no critical
differences and no unexpected one-sided resources.  The code violates it:
with a Deployment present only on the Kustomize side (an unexpected
one-sided resource, recorded in the report) and the special
`inferenceservice-config` ConfigMap present identically on both sides, the
per-resource loop's `success, msg = compare_configmap_data(...)` assignment
overwrites the `False` set by the one-sided check, and the run returns a
passing verdict. -/
theorem c1_pass_despite_one_sided :
    compare_resources [infCfgMap, strayDeployment] [infCfgMap] "kserve" none true =
      .ok (true, { testName := "kserve", kustomizeCount := 2, helmCount := 1,
                   namespaceOnly := [], otherOnlyKustomize := ["Deployment/stray-controller"],
                   onlyInHelm := [], commonCount := 1,
                   criticalDiffs := [], minorDiffs := [] }) := by
  decide

/-- C5: a Namespace present only on the Kustomize side is indeed an
expected, non-failing difference (first conjunct); but the claim that any
other one-sided resource makes the comparison fail is violated: a Service
present only on the Helm side is recorded in the report, yet the same
`success`-overwriting slip as in C1 lets the run return a passing verdict
(second conjunct). -/
theorem c5_one_sided_handling :
    (compare_resources [vMap (VMap.ofList [("kind", vStr "Namespace"),
        ("metadata", vMap (VMap.ofList [("name", vStr "kserve")]))])] [] "t" none true =
      .ok (true, { testName := "t", kustomizeCount := 1, helmCount := 0,
                   namespaceOnly := ["Namespace/kserve"], otherOnlyKustomize := [],
                   onlyInHelm := [], commonCount := 0,
                   criticalDiffs := [], minorDiffs := [] })) ∧
    (compare_resources [infCfgMap] [infCfgMap, strayService] "t" none true =
      .ok (true, { testName := "t", kustomizeCount := 1, helmCount := 2,
                   namespaceOnly := [], otherOnlyKustomize := [],
                   onlyInHelm := ["Service/stray-webhook"], commonCount := 1,
                   criticalDiffs := [], minorDiffs := [] })) := by
  constructor
  · decide
  · decide

theorem filterCRDs_idem : ∀ (l : List Val) {l' : List Val},
    filterCRDs l = .ok l' → filterCRDs l' = .ok l'
  | [], l', h => by
      simp only [filterCRDs] at h
      cases h
      simp [filterCRDs]
  | d :: ds, l', h => by
      simp only [filterCRDs] at h
      rcases Res.bind_eq_ok.mp h with ⟨k, hk, h2⟩
      rcases Res.bind_eq_ok.mp h2 with ⟨rest, hrest, h3⟩
      simp only [Res.pure_eq, Res.ok.injEq] at h3
      by_cases hcrd : pyEq k (vStr "CustomResourceDefinition") = true
      · rw [if_pos hcrd] at h3
        subst h3
        exact filterCRDs_idem ds hrest
      · rw [if_neg hcrd] at h3
        subst h3
        have hr := filterCRDs_idem ds hrest
        simp [filterCRDs, hk, hr, hcrd]

/-- C9: with CRD exclusion requested, `compare_resources` first removes
every `CustomResourceDefinition` document from both sides, so its result on
any two sets equals its result on the sets with those documents already
absent (and hence is identical for any two inputs that agree after CRD
removal). -/
theorem c9_crd_exclusion : ∀ (ks hs : List Val) (nm : String)
    (ms : Option (List (String × Val))) (ks' hs' : List Val),
    filterCRDs ks = .ok ks' → filterCRDs hs = .ok hs' →
    compare_resources ks hs nm ms true = compare_resources ks' hs' nm ms true := by
  intro ks hs nm ms ks' hs' h1 h2
  simp only [compare_resources, if_true, h1, h2, filterCRDs_idem ks h1,
    filterCRDs_idem hs h2, Res.bind_ok]

/-- Closed instance discharging the hypotheses of `c9_crd_exclusion` at a
concrete input. -/
theorem c9_crd_exclusion_witness :
    filterCRDs [vMap (VMap.ofList [("kind", vStr "CustomResourceDefinition"),
        ("metadata", vMap (VMap.ofList [("name", vStr "isvc-crd")]))]), strayDeployment] =
      .ok [strayDeployment] ∧
    filterCRDs [] = .ok ([] : List Val) ∧
    compare_resources [vMap (VMap.ofList [("kind", vStr "CustomResourceDefinition"),
        ("metadata", vMap (VMap.ofList [("name", vStr "isvc-crd")]))]), strayDeployment]
        [] "t" none true =
      compare_resources [strayDeployment] [] "t" none true := by
  refine ⟨by decide, by decide, ?_⟩
  exact c9_crd_exclusion _ _ "t" none _ _ (by decide) (by decide)

@[simp]
theorem Res.bind_pure {α : Type} (r : Res α) : (r >>= fun a => pure a) = r := by
  cases r <;> rfl

@[simp]
theorem hasSubChars_cons (pat : List Char) (c : Char) (t : List Char) :
    hasSubChars pat (c :: t) = (pat.isPrefixOf (c :: t) || hasSubChars pat t) := rfl

@[simp]
theorem isPrefixOf_nil_left (l : List Char) : List.isPrefixOf [] l = true := by
  cases l <;> rfl

@[simp]
theorem isPrefixOf_cons_cons (a b : Char) (as bs : List Char) :
    (a :: as).isPrefixOf (b :: bs) = ((a == b) && as.isPrefixOf bs) := rfl

@[simp]
theorem isPrefixOf_cons_nil (a : Char) (as : List Char) :
    (a :: as).isPrefixOf [] = false := rfl

theorem isPrefixOf_append_self : ∀ (p v : List Char), p.isPrefixOf (p ++ v) = true
  | [], v => isPrefixOf_nil_left v
  | a :: as, v => by
      rw [List.cons_append]
      simp [isPrefixOf_append_self as v]

theorem hasSubChars_mid : ∀ (u pat v : List Char), hasSubChars pat (u ++ pat ++ v) = true
  | [], pat, v => by
      rw [List.nil_append]
      cases hpv : pat ++ v with
      | nil =>
          have hp : pat = [] := by
            cases pat with
            | nil => rfl
            | cons a as => simp at hpv
          subst hp
          rfl
      | cons c cs =>
          rw [hasSubChars_cons, ← hpv, isPrefixOf_append_self]
          rfl
  | c :: u', pat, v => by
      have ih := hasSubChars_mid u' pat v
      rw [show (c :: u') ++ pat ++ v = c :: (u' ++ pat ++ v) by simp, hasSubChars_cons, ih]
      simp

theorem rsplitGo_last : ∀ (a b : List Char), hasSubChars [':'] b = false →
    rsplitGo [':'] (a ++ ':' :: b) = (a, b)
  | [], b, hb => by
      simp [rsplitGo, hb]
  | c :: a', b, hb => by
      have ih := rsplitGo_last a' b hb
      have hmid : hasSubChars [':'] (a' ++ ':' :: b) = true := by
        have := hasSubChars_mid a' [':'] b
        simpa using this
      by_cases hc : (':' == c) = true
      · have hc' : c = ':' := (beq_iff_eq.mp hc).symm
        subst hc'
        simp [rsplitGo, hmid, ih]
      · simp [rsplitGo, hc, ih]

theorem rsplit1_last (a b : List Char) (hb : hasSubChars [':'] b = false) :
    rsplit1 [':'] (a ++ ':' :: b) = [a, b] := by
  have hmid : hasSubChars [':'] (a ++ ':' :: b) = true := by
    have := hasSubChars_mid a [':'] b
    simpa using this
  simp [rsplit1, hmid, rsplitGo_last a b hb]

theorem splitFirstSub_boundary : ∀ (u rest : List Char),
    hasSubChars ['+', '('] u = false →
    splitFirstSub ['+', '('] (u ++ '+' :: '(' :: rest) = (u, rest)
  | [], rest, _ => by simp [splitFirstSub]
  | c :: u', rest, h => by
      rw [hasSubChars_cons, Bool.or_eq_false_iff] at h
      have ih := splitFirstSub_boundary u' rest h.2
      have hpre : List.isPrefixOf ['+', '('] (c :: (u' ++ '+' :: '(' :: rest)) = false := by
        by_cases hc : ('+' == c) = true
        · have hc' : c = '+' := (beq_iff_eq.mp hc).symm
          subst hc'
          cases u' with
          | nil => simp
          | cons d u'' =>
              by_cases hd : ('(' == d) = true
              · have hd' : d = '(' := (beq_iff_eq.mp hd).symm
                subst hd'
                simp at h
              · simp [hd]
        · simp [hc]
      rw [show (c :: u') ++ '+' :: '(' :: rest = c :: (u' ++ '+' :: '(' :: rest) by simp]
      simp [splitFirstSub, hpre, ih]

theorem pyIndexList_pair_zero {α : Type} (x y : α) : pyIndexList [x, y] 0 = .ok x := by
  simp [pyIndexList]

theorem pyIndexList_pair_one {α : Type} (x y : α) : pyIndexList [x, y] 1 = .ok y := by
  simp [pyIndexList]

theorem gvfp_nosplit (obj : Val) (p : String) (h : hasSub "+(" p = false) :
    get_value_from_path obj (vStr p) =
      navParts obj ((splitOnChar '.' p.data).map String.mk) := by
  simp only [get_value_from_path, Res.bind_ok, h, Bool.false_eq_true, if_false]
  exact Res.bind_pure _

/-- The trailing-split path evaluates through the boundary `+(`. -/
theorem gvfp_split_form (obj : Val) (p : String) (opTail : String)
    (h : hasSub "+(" p = false) :
    get_value_from_path obj (vStr (p ++ "+(" ++ opTail)) =
      (navParts obj ((splitOnChar '.' p.data).map String.mk) >>= fun v =>
        applySplitOp v (dropTrailing ')' opTail.data)) := by
  have hdata : (p ++ "+(" ++ opTail).data = p.data ++ '+' :: '(' :: opTail.data := by
    simp [String.data_append]
  have hmid : hasSubChars "+(".data (p ++ "+(" ++ opTail).data = true := by
    rw [hdata]
    have := hasSubChars_mid p.data ['+', '('] opTail.data
    simpa using this
  have hsplit : splitFirstSub "+(".data (p ++ "+(" ++ opTail).data = (p.data, opTail.data) := by
    rw [hdata]
    exact splitFirstSub_boundary p.data opTail.data h
  simp only [get_value_from_path, hasSub]
  simp only [Res.bind_ok, hmid, if_true, hsplit]

theorem applySplitOp_colon_zero (a b : List Char) (hb : hasSubChars [':'] b = false) :
    applySplitOp (vStr (String.mk (a ++ ':' :: b))) [':', ',', '0'] =
      .ok (vStr (String.mk a)) := by
  have hsp : splitOnChar ',' [':', ',', '0'] = [[':'], ['0']] := by decide
  unfold applySplitOp
  rw [hsp]
  have hip : pyIntParse ['0'] = .ok 0 := by decide
  simp only [hip, Res.bind_ok]
  simp only [if_true]
  rw [rsplit1_last a b hb]
  simp only [Res.pure_eq, Res.bind_ok, pyIndexList_pair_zero]

theorem applySplitOp_colon_one (a b : List Char) (hb : hasSubChars [':'] b = false) :
    applySplitOp (vStr (String.mk (a ++ ':' :: b))) [':', ',', '1'] =
      .ok (vStr (String.mk b)) := by
  have hsp : splitOnChar ',' [':', ',', '1'] = [[':'], ['1']] := by decide
  unfold applySplitOp
  rw [hsp]
  have hip : pyIntParse ['1'] = .ok 1 := by decide
  simp only [hip, Res.bind_ok]
  simp only [if_true]
  rw [rsplit1_last a b hb]
  simp only [Res.pure_eq, Res.bind_ok, pyIndexList_pair_one]

/-- C2: a trailing `+(:,i)` split on a resolved string splits at the
right-most colon into exactly two parts and returns the requested element
(first conjunct); on the spec's concrete Deployment image
`registry.io/ctl:v1.2.3`, index 0 yields the repository and index 1 the
tag (middle conjuncts); and the defaults builder records exactly those two
strings as the repository and tag parameter defaults (last conjunct). -/
theorem c2_rightmost_colon_split :
    (∀ (obj : Val) (p : String) (a b : List Char),
        hasSub "+(" p = false →
        hasSubChars [':'] b = false →
        get_value_from_path obj (vStr p) = .ok (vStr (String.mk (a ++ ':' :: b))) →
        get_value_from_path obj (vStr (p ++ "+(:,0)")) = .ok (vStr (String.mk a)) ∧
        get_value_from_path obj (vStr (p ++ "+(:,1)")) = .ok (vStr (String.mk b))) ∧
    get_value_from_path sampleDeployment
        (vStr "spec.template.spec.containers[0].image+(:,0)") = .ok (vStr "registry.io/ctl") ∧
    get_value_from_path sampleDeployment
        (vStr "spec.template.spec.containers[0].image+(:,1)") = .ok (vStr "v1.2.3") ∧
    extract_image_values sampleImgConfig sampleDeployment "kserve" "controller"
        sampleMapping [] =
      .ok (vMap (VMap.ofList [("image", vMap (VMap.ofList [
        ("repository", vStr "registry.io/ctl"), ("tag", vStr "v1.2.3")]))]), []) := by
  refine ⟨?_, by decide, by decide, by decide⟩
  intro obj p a b hp hb hnav
  have hnav' : navParts obj ((splitOnChar '.' p.data).map String.mk) =
      .ok (vStr (String.mk (a ++ ':' :: b))) := by
    rw [← gvfp_nosplit obj p hp]
    exact hnav
  have hr := rsplit1_last a b hb
  constructor
  · have h0 : (p ++ "+(:,0)") = (p ++ "+(" ++ ":,0)") := by simp [String.append_assoc]
    rw [h0, gvfp_split_form obj p ":,0)" hp, hnav']
    simp only [Res.bind_ok]
    have hdt : dropTrailing ')' ":,0)".data = [':', ',', '0'] := by decide
    rw [hdt, applySplitOp_colon_zero a b hb]
  · have h0 : (p ++ "+(:,1)") = (p ++ "+(" ++ ":,1)") := by simp [String.append_assoc]
    rw [h0, gvfp_split_form obj p ":,1)" hp, hnav']
    simp only [Res.bind_ok]
    have hdt : dropTrailing ')' ":,1)".data = [':', ',', '1'] := by decide
    rw [hdt, applySplitOp_colon_one a b hb]

/-- Closed instance discharging the hypotheses of the universally
quantified part of `c2_rightmost_colon_split`. -/
theorem c2_rightmost_colon_split_witness :
    get_value_from_path sampleDeployment
        (vStr ("spec.template.spec.containers[0].image" ++ "+(:,0)")) =
      .ok (vStr (String.mk "registry.io/ctl".data)) ∧
    get_value_from_path sampleDeployment
        (vStr ("spec.template.spec.containers[0].image" ++ "+(:,1)")) =
      .ok (vStr (String.mk "v1.2.3".data)) :=
  c2_rightmost_colon_split.1 sampleDeployment "spec.template.spec.containers[0].image"
    "registry.io/ctl".data "v1.2.3".data (by decide) (by decide) (by decide)

theorem vSub_lookup {m : VMap} {k : String} {v : Val} (h : m.lookup k = some v) :
    vSub (vMap m) k = .ok v := by
  simp [vSub, h]

theorem pyIn_hasKey (m : VMap) (k : String) : pyIn k (vMap m) = .ok (m.hasKey k) := rfl

/-- C6: the emitted `image:` line of the primary container renders
`repository ":" tag`, with the tag resolving through the three-level
fallback chain: shared top-level `kserve.version` override first, else the
component-level `<chart>.version`, else the mapped default tag parameter —
exhibited by the decomposition in the first conjunct; the second conjunct
shows `_generate_container_spec` emits exactly that line (right after the
`name:` line) whenever the component configuration maps the image. -/
theorem c6_image_fallback_chain :
    (∀ (repoPath chartName tagPath : String),
        (imageFallbackLine repoPath chartName tagPath).data =
          "        image: \"".data ++
            ("\x7b\x7b .Values." ++ repoPath ++ " \x7d\x7d").data ++ ":".data ++
            ("\x7b\x7b .Values.kserve.version | default .Values." ++ chartName ++
              ".version | default .Values." ++ tagPath ++ " \x7d\x7d").data ++ "\"".data) ∧
    (∀ (cm cfgm im rm tm : VMap) (nm rvp : Val) (tvpS : String) (wt : String)
        (ls : List String),
        cm.lookup "name" = some nm →
        cfgm.lookup "image" = some (vMap im) →
        im.lookup "repository" = some (vMap rm) →
        rm.lookup "valuePath" = some rvp →
        im.lookup "tag" = some (vMap tm) →
        tm.lookup "valuePath" = some (vStr tvpS) →
        generate_container_spec (vMap cm) true (vMap cfgm) wt = .ok ls →
        ls.take 2 = ["      - name: " ++ pyStr nm,
          imageFallbackLine (pyStr rvp) (String.mk (splitOnChar '.' tvpS.data).headI) tvpS]) := by
  constructor
  · intro repoPath chartName tagPath
    simp [imageFallbackLine, String.data_append]
  · intro cm cfgm im rm tm nm rvp tvpS wt ls hname himg hrepo hrvp htag htvp h
    rw [generate_container_spec] at h
    simp only [vSub_lookup hname, vSub_lookup himg, vSub_lookup hrepo, vSub_lookup hrvp,
      vSub_lookup htag, vSub_lookup htvp, pyIn_hasKey, Res.bind_ok, if_true] at h
    have hkey : cfgm.hasKey "image" = true := by simp [VMap.hasKey, himg]
    rw [hkey] at h
    simp only [if_true, true_and, Res.pure_eq, Res.bind_ok, vSub_lookup himg,
      vSub_lookup hrepo, vSub_lookup hrvp, vSub_lookup htag, vSub_lookup htvp] at h
    repeat
      obtain ⟨_, _, h⟩ := Res.bind_eq_ok.mp h
    simp only [Res.pure_eq, Res.ok.injEq] at h
    subst h
    simp [List.take]

/-- Closed instance discharging the hypotheses of the second part of
`c6_image_fallback_chain` at a concrete container and configuration. -/
theorem c6_image_fallback_chain_witness :
    (["      - name: manager",
      imageFallbackLine "ctl.repo" "ctl" "ctl.tag"] : List String).take 2 =
      ["      - name: " ++ pyStr (vStr "manager"),
       imageFallbackLine (pyStr (vStr "ctl.repo"))
         (String.mk (splitOnChar '.' ("ctl.tag" : String).data).headI) "ctl.tag"] :=
  c6_image_fallback_chain.2
    (VMap.ofList [("name", vStr "manager")])
    (VMap.ofList [("image", vMap (VMap.ofList [
      ("repository", vMap (VMap.ofList [("valuePath", vStr "ctl.repo")])),
      ("tag", vMap (VMap.ofList [("valuePath", vStr "ctl.tag")]))]))])
    (VMap.ofList [
      ("repository", vMap (VMap.ofList [("valuePath", vStr "ctl.repo")])),
      ("tag", vMap (VMap.ofList [("valuePath", vStr "ctl.tag")]))])
    (VMap.ofList [("valuePath", vStr "ctl.repo")])
    (VMap.ofList [("valuePath", vStr "ctl.tag")])
    (vStr "manager") (vStr "ctl.repo") "ctl.tag" "deployment"
    ["      - name: manager", imageFallbackLine "ctl.repo" "ctl" "ctl.tag"]
    (by decide) (by decide) (by decide) (by decide) (by decide) (by decide) (by decide)

/-- C7: a mapped pod-spec field named `affinity` or `tolerations` is
emitted as the unconditional `toYaml` line, while every other mapped field
is emitted through the `with`-guarded configurable template, which
suppresses the field when the parameter value is empty (first conjunct);
the second and third conjuncts exhibit the two emitted shapes — the
guarded template is wrapped in `\x7b\x7b- with ... \x7d\x7d`/`\x7b\x7b- end \x7d\x7d`,
the unconditional line carries no guard. -/
theorem c7_affinity_tolerations_unconditional :
    (∀ (ccm fcm tmm : VMap) (wt f : String) (v vp : Val),
        f ≠ "containers" →
        ccm.lookup f = some (vMap fcm) →
        fcm.lookup "valuePath" = some vp →
        (fcm.lookup "template").getD (vMap .nil) = vMap tmm →
        renderPodField (vMap ccm) wt f v =
          .ok (if f = "affinity" ∨ f = "tolerations" then
                 [unconditionalFieldLine f (pyStr vp)]
               else
                 [templateConfigurable (pyStr vp) f
                   (pyStr ((tmm.lookup "indent").getD (vInt 8)))])) ∧
    (∀ (vp f ind : String),
        (templateConfigurable vp f ind).data =
          ("      \x7b\x7b- with .Values." ++ vp ++ " \x7d\x7d\n").data ++
            ("      " ++ f ++ ":\n").data ++
            ("        \x7b\x7b- toYaml . | nindent " ++ ind ++ " \x7d\x7d\n").data ++
            ("      \x7b\x7b- end \x7d\x7d\n").data) ∧
    (∀ (f vp : String),
        unconditionalFieldLine f vp =
          "      " ++ f ++ ": \x7b\x7b- toYaml .Values." ++ vp ++ " | nindent 8 \x7d\x7d") := by
  refine ⟨?_, ?_, fun f vp => rfl⟩
  · intro ccm fcm tmm wt f v vp hnc hf hvp htm
    rw [renderPodField]
    rw [if_neg hnc]
    have hkey : ccm.hasKey f = true := by simp [VMap.hasKey, hf]
    simp only [pyIn_hasKey, Res.bind_ok, hkey, if_true, vSub_lookup hf]
    have hkey2 : fcm.hasKey "valuePath" = true := by simp [VMap.hasKey, hvp]
    simp only [pyIn_hasKey, Res.bind_ok, hkey2, if_true, Res.pure_eq]
    by_cases haff : f = "affinity" ∨ f = "tolerations"
    · rw [if_pos haff, if_pos haff]
      simp [vSub_lookup hvp]
    · rw [if_neg haff, if_neg haff]
      simp only [render_field, pyGet, htm, Res.bind_ok, Res.pure_eq, pyIn_hasKey, hkey2,
        if_true, vSub_lookup hvp,
        show ((6 : Nat) : Int) + 2 = 8 by norm_num]
  · intro vp f ind
    simp [templateConfigurable, String.data_append]

/-- Closed instance discharging the hypotheses of the first part of
`c7_affinity_tolerations_unconditional` at both an `affinity` field and an
ordinary mapped field. -/
theorem c7_affinity_tolerations_unconditional_witness :
    (renderPodField (vMap (VMap.ofList [("affinity",
        vMap (VMap.ofList [("valuePath", vStr "kserve.affinity")]))])) "deployment"
        "affinity" (vMap .nil) =
      .ok (if "affinity" = "affinity" ∨ "affinity" = "tolerations" then
             [unconditionalFieldLine "affinity" (pyStr (vStr "kserve.affinity"))]
           else
             [templateConfigurable (pyStr (vStr "kserve.affinity")) "affinity"
               (pyStr ((VMap.nil.lookup "indent").getD (vInt 8)))])) ∧
    (renderPodField (vMap (VMap.ofList [("nodeSelector",
        vMap (VMap.ofList [("valuePath", vStr "kserve.nodeSelector")]))])) "deployment"
        "nodeSelector" (vMap .nil) =
      .ok (if "nodeSelector" = "affinity" ∨ "nodeSelector" = "tolerations" then
             [unconditionalFieldLine "nodeSelector" (pyStr (vStr "kserve.nodeSelector"))]
           else
             [templateConfigurable (pyStr (vStr "kserve.nodeSelector")) "nodeSelector"
               (pyStr ((VMap.nil.lookup "indent").getD (vInt 8)))])) :=
  ⟨c7_affinity_tolerations_unconditional.1
      (VMap.ofList [("affinity", vMap (VMap.ofList [("valuePath", vStr "kserve.affinity")]))])
      (VMap.ofList [("valuePath", vStr "kserve.affinity")]) VMap.nil "deployment" "affinity"
      (vMap .nil) (vStr "kserve.affinity") (by decide) (by decide) (by decide) (by decide),
   c7_affinity_tolerations_unconditional.1
      (VMap.ofList [("nodeSelector", vMap (VMap.ofList [("valuePath", vStr "kserve.nodeSelector")]))])
      (VMap.ofList [("valuePath", vStr "kserve.nodeSelector")]) VMap.nil "deployment"
      "nodeSelector" (vMap .nil) (vStr "kserve.nodeSelector")
      (by decide) (by decide) (by decide) (by decide)⟩

/-! ### Round-trip of the Go-template escaping (C3) -/

theorem prefix_of_prefix : ∀ (u v X : List Char),
    (u ++ v).isPrefixOf X = true → u.isPrefixOf X = true
  | [], _, X, _ => isPrefixOf_nil_left X
  | a :: u', v, X, h => by
      cases X with
      | nil => simp at h
      | cons x xs =>
          rw [List.cons_append] at h
          rw [isPrefixOf_cons_cons] at h ⊢
          simp only [Bool.and_eq_true] at h
          obtain ⟨h1, h2⟩ := h
          rw [h1, prefix_of_prefix u' v xs h2]
          rfl

theorem hasSub_of_isPre (w s : List Char) (h : w.isPrefixOf s = true) :
    hasSubChars w s = true := by
  cases s with
  | nil =>
      cases w with
      | nil => rfl
      | cons a as => simp at h
  | cons c t => rw [hasSubChars_cons, h]; rfl

theorem hasSub_tail {w : List Char} {c : Char} {t : List Char}
    (h : hasSubChars w (c :: t) = false) : hasSubChars w t = false := by
  rw [hasSubChars_cons, Bool.or_eq_false_iff] at h
  exact h.2

theorem prefix_decomp : ∀ (pat s : List Char), pat.isPrefixOf s = true →
    pat ++ s.drop pat.length = s
  | [], s, _ => by simp
  | a :: as, [], h => by simp at h
  | a :: as, b :: bs, h => by
      rw [isPrefixOf_cons_cons] at h
      simp only [Bool.and_eq_true] at h
      obtain ⟨h1, h2⟩ := h
      have := prefix_decomp as bs h2
      simp only [List.cons_append, List.length_cons, List.drop_succ_cons, this]
      rw [beq_iff_eq.mp h1]

theorem pyReplaceGo_fuel : ∀ (f : Nat) (pat repl s : List Char), pat ≠ [] →
    s.length ≤ f → pyReplaceGo pat repl f s = pyReplaceGo pat repl s.length s
  | 0, pat, repl, s, _, hle => by
      have : s = [] := by
        cases s with
        | nil => rfl
        | cons c t => simp at hle
      subst this
      rfl
  | f + 1, pat, repl, [], _, _ => rfl
  | f + 1, pat, repl, c :: t, hpat, hle => by
      by_cases hpre : (pat ≠ [] ∧ pat.isPrefixOf (c :: t) = true)
      · have hlen : 1 ≤ pat.length := by
          cases pat with
          | nil => exact absurd rfl hpat
          | cons _ _ => simp
        have hdrop : ((c :: t).drop pat.length).length ≤ f := by
          simp only [List.length_drop, List.length_cons]
          simp only [List.length_cons] at hle
          omega
        have hdrop2 : ((c :: t).drop pat.length).length ≤ t.length := by
          simp only [List.length_drop, List.length_cons]
          omega
        show pyReplaceGo pat repl (f + 1) (c :: t) = pyReplaceGo pat repl (t.length + 1) (c :: t)
        rw [pyReplaceGo, pyReplaceGo]
        rw [if_pos hpre, if_pos hpre]
        rw [pyReplaceGo_fuel f pat repl _ hpat hdrop,
          pyReplaceGo_fuel t.length pat repl _ hpat hdrop2]
      · have hlt : t.length ≤ f := by
          simp only [List.length_cons] at hle
          omega
        show pyReplaceGo pat repl (f + 1) (c :: t) = pyReplaceGo pat repl (t.length + 1) (c :: t)
        rw [pyReplaceGo, pyReplaceGo]
        rw [if_neg hpre, if_neg hpre]
        rw [pyReplaceGo_fuel f pat repl t hpat hlt]

theorem pyReplace_match (pat repl v : List Char) (hpat : pat ≠ []) :
    pyReplace pat repl (pat ++ v) = repl ++ pyReplace pat repl v := by
  obtain ⟨p0, pt, rfl⟩ : ∃ p0 pt, pat = p0 :: pt := by
    cases pat with
    | nil => exact absurd rfl hpat
    | cons p0 pt => exact ⟨p0, pt, rfl⟩
  show pyReplaceGo _ repl ((p0 :: pt) ++ v).length ((p0 :: pt) ++ v) = _
  rw [show ((p0 :: pt) ++ v) = p0 :: (pt ++ v) from rfl]
  have hlen : (p0 :: (pt ++ v)).length = (pt ++ v).length + 1 := by simp
  rw [hlen, pyReplaceGo]
  rw [if_pos ⟨hpat, by
    rw [show (p0 :: (pt ++ v)) = (p0 :: pt) ++ v from rfl]
    exact isPrefixOf_append_self _ _⟩]
  have hdrop : (p0 :: (pt ++ v)).drop (p0 :: pt).length = v := by
    rw [show (p0 :: (pt ++ v)) = (p0 :: pt) ++ v from rfl]
    exact List.drop_left _ _
  rw [hdrop]
  have hvle : v.length ≤ (pt ++ v).length := by simp
  rw [pyReplaceGo_fuel _ _ _ _ hpat hvle]
  rfl

theorem pyReplace_cons_nomatch (pat repl : List Char) (c : Char) (t : List Char)
    (h : pat.isPrefixOf (c :: t) = false) :
    pyReplace pat repl (c :: t) = c :: pyReplace pat repl t := by
  show pyReplaceGo pat repl (c :: t).length (c :: t) = _
  rw [show (c :: t).length = t.length + 1 from rfl, pyReplaceGo]
  rw [if_neg (by simp [h])]
  rfl

theorem pyReplace_skip (pat repl : List Char) (p0 : Char) (pt : List Char)
    (hpat : pat = p0 :: pt) :
    ∀ (u v : List Char), (∀ c ∈ u, c ≠ p0) →
    pyReplace pat repl (u ++ v) = u ++ pyReplace pat repl v
  | [], v, _ => by simp
  | c :: u', v, hu => by
      have hc : c ≠ p0 := hu c (by simp)
      have hpre : pat.isPrefixOf (c :: (u' ++ v)) = false := by
        rw [hpat, isPrefixOf_cons_cons]
        have : (p0 == c) = false := by
          rw [beq_eq_false_iff_ne]
          exact fun he => hc he.symm
        rw [this]
        rfl
      rw [List.cons_append, pyReplace_cons_nomatch _ _ _ _ hpre,
        pyReplace_skip pat repl p0 pt hpat u' v (fun d hd => hu d (by simp [hd]))]
      rfl

theorem stage1_head_not_close (b : Char) (r : List Char) (hb : b ≠ '\x7d') :
    List.isPrefixOf ['\x7d'] (pyReplace openDelim helmOpenMark (b :: r)) = false := by
  by_cases hpre : openDelim.isPrefixOf (b :: r) = true
  · have hdec := prefix_decomp openDelim (b :: r) hpre
    rw [← hdec, pyReplace_match _ _ _ (by decide)]
    rw [show helmOpenMark ++
        pyReplace openDelim helmOpenMark ((b :: r).drop openDelim.length) =
      '_' :: ("_HELM_OPEN__".data ++
        pyReplace openDelim helmOpenMark ((b :: r).drop openDelim.length)) from rfl]
    rw [isPrefixOf_cons_cons]
    simp
  · rw [pyReplace_cons_nomatch _ _ _ _ (Bool.eq_false_iff.mpr hpre)]
    rw [isPrefixOf_cons_cons]
    have : ('\x7d' == b) = false := by
      rw [beq_eq_false_iff_ne]
      exact fun he => hb he.symm
    rw [this]
    rfl

theorem stage12 : ∀ s : List Char,
    pyReplace closeDelim helmCloseMark (pyReplace openDelim helmOpenMark s) =
      emitWith helmOpenMark helmCloseMark (toks s)
  | [] => rfl
  | [a] => by
      have h1 : openDelim.isPrefixOf [a] = false := by
        rw [show openDelim = '\x7b' :: ['\x7b'] from rfl, isPrefixOf_cons_cons]
        simp
      have h2 : closeDelim.isPrefixOf [a] = false := by
        rw [show closeDelim = '\x7d' :: ['\x7d'] from rfl, isPrefixOf_cons_cons]
        simp
      rw [pyReplace_cons_nomatch _ _ _ _ h1]
      rw [show pyReplace openDelim helmOpenMark [] = [] from rfl]
      rw [pyReplace_cons_nomatch _ _ _ _ h2]
      rfl
  | a :: b :: r => by
      by_cases hop : a = '\x7b' ∧ b = '\x7b'
      · obtain ⟨rfl, rfl⟩ := hop
        have hm : pyReplace openDelim helmOpenMark ('\x7b' :: '\x7b' :: r) =
            helmOpenMark ++ pyReplace openDelim helmOpenMark r :=
          pyReplace_match openDelim helmOpenMark r (by decide)
        rw [hm]
        rw [pyReplace_skip closeDelim helmCloseMark '\x7d' ['\x7d'] rfl helmOpenMark _
          (by decide)]
        rw [stage12 r]
        rw [show toks ('\x7b' :: '\x7b' :: r) = .op :: toks r by simp [toks]]
        rfl
      · by_cases hcl : a = '\x7d' ∧ b = '\x7d'
        · obtain ⟨rfl, rfl⟩ := hcl
          have h1 : openDelim.isPrefixOf ('\x7d' :: '\x7d' :: r) = false := by
            rw [show openDelim = '\x7b' :: ['\x7b'] from rfl, isPrefixOf_cons_cons]
            simp
          have h1' : openDelim.isPrefixOf ('\x7d' :: r) = false := by
            rw [show openDelim = '\x7b' :: ['\x7b'] from rfl, isPrefixOf_cons_cons]
            simp
          rw [pyReplace_cons_nomatch _ _ _ _ h1, pyReplace_cons_nomatch _ _ _ _ h1']
          have hm : pyReplace closeDelim helmCloseMark
              ('\x7d' :: '\x7d' :: pyReplace openDelim helmOpenMark r) =
            helmCloseMark ++ pyReplace closeDelim helmCloseMark
              (pyReplace openDelim helmOpenMark r) :=
            pyReplace_match closeDelim helmCloseMark _ (by decide)
          rw [hm]
          rw [stage12 r]
          rw [show toks ('\x7d' :: '\x7d' :: r) = .cl :: toks r by simp [toks]]
          rfl
        · have h1 : openDelim.isPrefixOf (a :: b :: r) = false := by
            rw [show openDelim = '\x7b' :: ['\x7b'] from rfl, isPrefixOf_cons_cons]
            by_cases ha : a = '\x7b'
            · subst ha
              have hbne : b ≠ '\x7b' := fun hb => hop ⟨rfl, hb⟩
              rw [isPrefixOf_cons_cons]
              have : ('\x7b' == b) = false := by
                rw [beq_eq_false_iff_ne]
                exact fun he => hbne he.symm
              rw [this]
              simp
            · have : ('\x7b' == a) = false := by
                rw [beq_eq_false_iff_ne]
                exact fun he => ha he.symm
              rw [this]
              rfl
          rw [pyReplace_cons_nomatch _ _ _ _ h1]
          have h2 : closeDelim.isPrefixOf (a :: pyReplace openDelim helmOpenMark (b :: r)) =
              false := by
            rw [show closeDelim = '\x7d' :: ['\x7d'] from rfl, isPrefixOf_cons_cons]
            by_cases ha : a = '\x7d'
            · subst ha
              have hbne : b ≠ '\x7d' := fun hb => hcl ⟨rfl, hb⟩
              rw [stage1_head_not_close b r hbne]
              simp
            · have : ('\x7d' == a) = false := by
                rw [beq_eq_false_iff_ne]
                exact fun he => ha he.symm
              rw [this]
              rfl
          rw [pyReplace_cons_nomatch _ _ _ _ h2]
          rw [stage12 (b :: r)]
          rw [show toks (a :: b :: r) = .chr a :: toks (b :: r) by
            simp only [toks]
            rw [if_neg hop, if_neg hcl]]
          rfl
termination_by s => s.length

/-- A prefix made of ordinary characters (no `_`, no braces) of the emitted
form must already be a prefix of the source: the emitted delimiter blocks
all start with `_` or a brace, and consecutive ordinary characters come
from consecutive source characters. -/
theorem chr_prefix_emit (fop fcl : List Char) (f0 c0 : Char) (ft ct : List Char)
    (hfop : fop = f0 :: ft) (hfcl : fcl = c0 :: ct)
    (hopHead : f0 = '_' ∨ f0 = '\x7b' ∨ f0 = '\x7d')
    (hclHead : c0 = '_' ∨ c0 = '\x7b' ∨ c0 = '\x7d') :
    ∀ (s w : List Char),
      (∀ c ∈ w, c ≠ '_' ∧ c ≠ '\x7b' ∧ c ≠ '\x7d') →
      w.isPrefixOf (emitWith fop fcl (toks s)) = true →
      w.isPrefixOf s = true
  | [], w, hw, h => by
      cases w with
      | nil => rfl
      | cons c w' => simp [toks, emitWith] at h
  | [a], w, hw, h => by
      have he : emitWith fop fcl (toks [a]) = [a] := rfl
      rw [he] at h
      exact h
  | a :: b :: r, w, hw, h => by
      by_cases hop2 : a = '\x7b' ∧ b = '\x7b'
      · rw [show toks (a :: b :: r) = .op :: toks r by simp [toks, hop2.1, hop2.2]] at h
        rw [emitWith, hfop] at h
        cases w with
        | nil => exact isPrefixOf_nil_left _
        | cons c w' =>
            rw [List.cons_append, isPrefixOf_cons_cons] at h
            simp only [Bool.and_eq_true, beq_iff_eq] at h
            have := (hw c (by simp))
            rw [h.1] at this
            rcases hopHead with h' | h' | h' <;> subst h' <;> simp at this
      · by_cases hcl2 : a = '\x7d' ∧ b = '\x7d'
        · rw [show toks (a :: b :: r) = .cl :: toks r by
            simp only [toks]
            rw [if_neg hop2, if_pos hcl2]] at h
          rw [emitWith, hfcl] at h
          cases w with
          | nil => exact isPrefixOf_nil_left _
          | cons c w' =>
              rw [List.cons_append, isPrefixOf_cons_cons] at h
              simp only [Bool.and_eq_true, beq_iff_eq] at h
              have := (hw c (by simp))
              rw [h.1] at this
              rcases hclHead with h' | h' | h' <;> subst h' <;> simp at this
        · rw [show toks (a :: b :: r) = .chr a :: toks (b :: r) by
            simp only [toks]
            rw [if_neg hop2, if_neg hcl2]] at h
          rw [emitWith] at h
          cases w with
          | nil => exact isPrefixOf_nil_left _
          | cons c w' =>
              rw [isPrefixOf_cons_cons] at h ⊢
              simp only [Bool.and_eq_true] at h
              obtain ⟨h1, h2⟩ := h
              have ih := chr_prefix_emit fop fcl f0 c0 ft ct hfop hfcl hopHead hclHead
                (b :: r) w' (fun d hd => hw d (by simp [hd])) h2
              rw [h1, ih]
              rfl
termination_by s => s.length

theorem helm_not_prefix_emit (fop fcl : List Char) (f0 c0 : Char) (ft ct : List Char)
    (hfop : fop = f0 :: ft) (hfcl : fcl = c0 :: ct)
    (hopHead : f0 = '_' ∨ f0 = '\x7b' ∨ f0 = '\x7d')
    (hclHead : c0 = '_' ∨ c0 = '\x7b' ∨ c0 = '\x7d')
    (s z : List Char) (hs : hasSubChars helmWord s = false) :
    List.isPrefixOf ('H' :: 'E' :: 'L' :: 'M' :: z) (emitWith fop fcl (toks s)) = false := by
  cases hp : List.isPrefixOf ('H' :: 'E' :: 'L' :: 'M' :: z) (emitWith fop fcl (toks s)) with
  | false => rfl
  | true =>
      have hhelm : helmWord.isPrefixOf (emitWith fop fcl (toks s)) = true := by
        have : ('H' :: 'E' :: 'L' :: 'M' :: z) = helmWord ++ z := rfl
        rw [this] at hp
        exact prefix_of_prefix helmWord z _ hp
      have := chr_prefix_emit fop fcl f0 c0 ft ct hfop hfcl hopHead hclHead s helmWord
        (by decide) hhelm
      rw [hasSub_of_isPre helmWord s this] at hs
      cases hs

theorem uhelm_not_prefix_emit (fop fcl : List Char) (f0 c0 : Char) (ft ct : List Char)
    (hfop : fop = f0 :: ft) (hfcl : fcl = c0 :: ct)
    (hopHead : f0 = '_' ∨ f0 = '\x7b' ∨ f0 = '\x7d')
    (hclHead : c0 = '_' ∨ c0 = '\x7b' ∨ c0 = '\x7d')
    (h2op : ∀ (y X : List Char), List.isPrefixOf ('_' :: 'H' :: y) (fop ++ X) = false)
    (h2cl : ∀ (y X : List Char), List.isPrefixOf ('_' :: 'H' :: y) (fcl ++ X) = false) :
    ∀ (s z : List Char), hasSubChars helmWord s = false →
      List.isPrefixOf ('_' :: 'H' :: 'E' :: 'L' :: 'M' :: z)
        (emitWith fop fcl (toks s)) = false
  | [], z, _ => rfl
  | [a], z, _ => by
      have he : emitWith fop fcl (toks [a]) = [a] := rfl
      rw [he, isPrefixOf_cons_cons]
      cases hb : ('_' == a) <;> simp
  | a :: b :: r, z, hs => by
      by_cases hop2 : a = '\x7b' ∧ b = '\x7b'
      · rw [show toks (a :: b :: r) = .op :: toks r by simp [toks, hop2.1, hop2.2]]
        rw [emitWith]
        exact h2op _ _
      · by_cases hcl2 : a = '\x7d' ∧ b = '\x7d'
        · rw [show toks (a :: b :: r) = .cl :: toks r by
            simp only [toks]
            rw [if_neg hop2, if_pos hcl2]]
          rw [emitWith]
          exact h2cl _ _
        · rw [show toks (a :: b :: r) = .chr a :: toks (b :: r) by
            simp only [toks]
            rw [if_neg hop2, if_neg hcl2]]
          rw [emitWith, isPrefixOf_cons_cons]
          cases ha : ('_' == a) with
          | false => rfl
          | true =>
              rw [helm_not_prefix_emit fop fcl f0 c0 ft ct hfop hfcl hopHead hclHead
                (b :: r) z (hasSub_tail hs)]
              rfl

/-- If the pattern truncated to the concrete chunk fails to match it, the
pattern cannot match the chunk followed by anything. -/
theorem notpre_take : ∀ (w u X : List Char),
    (w.take u.length).isPrefixOf u = false → w.isPrefixOf (u ++ X) = false
  | w, [], X, h => by simp [List.take] at h
  | [], b :: u', X, h => by simp [List.take] at h
  | a :: w', b :: u', X, h => by
      rw [show (a :: w').take (b :: u').length = a :: w'.take u'.length from rfl,
        isPrefixOf_cons_cons] at h
      rw [List.cons_append, isPrefixOf_cons_cons]
      cases hab : (a == b) with
      | false => rfl
      | true =>
          rw [hab] at h
          simp only [Bool.true_and] at h ⊢
          exact notpre_take w' u' X h

/-- The open-marker→expression pass steps over a close marker unchanged,
provided the text after the marker does not continue it into an open
marker (which a `HELM`-free source never produces). -/
theorem stepC_close (X : List Char)
    (hx1 : List.isPrefixOf
      ('H' :: 'E' :: 'L' :: 'M' :: '_' :: 'O' :: 'P' :: 'E' :: 'N' :: '_' :: '_' :: [])
      X = false)
    (hx2 : List.isPrefixOf
      ('_' :: 'H' :: 'E' :: 'L' :: 'M' :: '_' :: 'O' :: 'P' :: 'E' :: 'N' :: '_' :: '_' :: [])
      X = false) :
    pyReplace helmOpenMark emitOpenExpr (helmCloseMark ++ X) =
      helmCloseMark ++ pyReplace helmOpenMark emitOpenExpr X := by
  have h0 : helmOpenMark.isPrefixOf
      ('_' :: '_' :: 'H' :: 'E' :: 'L' :: 'M' :: '_' :: 'C' :: 'L' :: 'O' :: 'S' :: 'E' :: '_' :: '_' :: X) = false :=
    notpre_take helmOpenMark
      ('_' :: '_' :: 'H' :: 'E' :: 'L' :: 'M' :: '_' :: 'C' :: 'L' :: 'O' :: 'S' :: 'E' :: '_' :: '_' :: []) X (by decide)
  have h1 : helmOpenMark.isPrefixOf
      ('_' :: 'H' :: 'E' :: 'L' :: 'M' :: '_' :: 'C' :: 'L' :: 'O' :: 'S' :: 'E' :: '_' :: '_' :: X) = false :=
    notpre_take helmOpenMark
      ('_' :: 'H' :: 'E' :: 'L' :: 'M' :: '_' :: 'C' :: 'L' :: 'O' :: 'S' :: 'E' :: '_' :: '_' :: []) X (by decide)
  have h2 : helmOpenMark.isPrefixOf
      ('H' :: 'E' :: 'L' :: 'M' :: '_' :: 'C' :: 'L' :: 'O' :: 'S' :: 'E' :: '_' :: '_' :: X) = false :=
    notpre_take helmOpenMark
      ('H' :: 'E' :: 'L' :: 'M' :: '_' :: 'C' :: 'L' :: 'O' :: 'S' :: 'E' :: '_' :: '_' :: []) X (by decide)
  have h3 : helmOpenMark.isPrefixOf
      ('E' :: 'L' :: 'M' :: '_' :: 'C' :: 'L' :: 'O' :: 'S' :: 'E' :: '_' :: '_' :: X) = false :=
    notpre_take helmOpenMark
      ('E' :: 'L' :: 'M' :: '_' :: 'C' :: 'L' :: 'O' :: 'S' :: 'E' :: '_' :: '_' :: []) X (by decide)
  have h4 : helmOpenMark.isPrefixOf
      ('L' :: 'M' :: '_' :: 'C' :: 'L' :: 'O' :: 'S' :: 'E' :: '_' :: '_' :: X) = false :=
    notpre_take helmOpenMark
      ('L' :: 'M' :: '_' :: 'C' :: 'L' :: 'O' :: 'S' :: 'E' :: '_' :: '_' :: []) X (by decide)
  have h5 : helmOpenMark.isPrefixOf
      ('M' :: '_' :: 'C' :: 'L' :: 'O' :: 'S' :: 'E' :: '_' :: '_' :: X) = false :=
    notpre_take helmOpenMark
      ('M' :: '_' :: 'C' :: 'L' :: 'O' :: 'S' :: 'E' :: '_' :: '_' :: []) X (by decide)
  have h6 : helmOpenMark.isPrefixOf
      ('_' :: 'C' :: 'L' :: 'O' :: 'S' :: 'E' :: '_' :: '_' :: X) = false :=
    notpre_take helmOpenMark
      ('_' :: 'C' :: 'L' :: 'O' :: 'S' :: 'E' :: '_' :: '_' :: []) X (by decide)
  have h7 : helmOpenMark.isPrefixOf
      ('C' :: 'L' :: 'O' :: 'S' :: 'E' :: '_' :: '_' :: X) = false :=
    notpre_take helmOpenMark ('C' :: 'L' :: 'O' :: 'S' :: 'E' :: '_' :: '_' :: []) X (by decide)
  have h8 : helmOpenMark.isPrefixOf
      ('L' :: 'O' :: 'S' :: 'E' :: '_' :: '_' :: X) = false :=
    notpre_take helmOpenMark ('L' :: 'O' :: 'S' :: 'E' :: '_' :: '_' :: []) X (by decide)
  have h9 : helmOpenMark.isPrefixOf ('O' :: 'S' :: 'E' :: '_' :: '_' :: X) = false :=
    notpre_take helmOpenMark ('O' :: 'S' :: 'E' :: '_' :: '_' :: []) X (by decide)
  have h10 : helmOpenMark.isPrefixOf ('S' :: 'E' :: '_' :: '_' :: X) = false :=
    notpre_take helmOpenMark ('S' :: 'E' :: '_' :: '_' :: []) X (by decide)
  have h11 : helmOpenMark.isPrefixOf ('E' :: '_' :: '_' :: X) = false :=
    notpre_take helmOpenMark ('E' :: '_' :: '_' :: []) X (by decide)
  have h12 : helmOpenMark.isPrefixOf ('_' :: '_' :: X) = false := by
    rw [show helmOpenMark =
      '_' :: '_' :: ('H' :: 'E' :: 'L' :: 'M' :: '_' :: 'O' :: 'P' :: 'E' :: 'N' :: '_' :: '_' :: []) from rfl,
      isPrefixOf_cons_cons, isPrefixOf_cons_cons]
    simp only [beq_self_eq_true, Bool.true_and]
    exact hx1
  have h13 : helmOpenMark.isPrefixOf ('_' :: X) = false := by
    rw [show helmOpenMark =
      '_' :: ('_' :: 'H' :: 'E' :: 'L' :: 'M' :: '_' :: 'O' :: 'P' :: 'E' :: 'N' :: '_' :: '_' :: []) from rfl,
      isPrefixOf_cons_cons]
    simp only [beq_self_eq_true, Bool.true_and]
    exact hx2
  show pyReplace helmOpenMark emitOpenExpr
      ('_' :: '_' :: 'H' :: 'E' :: 'L' :: 'M' :: '_' :: 'C' :: 'L' :: 'O' :: 'S' :: 'E' :: '_' :: '_' :: X) =
    '_' :: '_' :: 'H' :: 'E' :: 'L' :: 'M' :: '_' :: 'C' :: 'L' :: 'O' :: 'S' :: 'E' :: '_' :: '_' ::
      pyReplace helmOpenMark emitOpenExpr X
  rw [pyReplace_cons_nomatch _ _ _ _ h0, pyReplace_cons_nomatch _ _ _ _ h1,
    pyReplace_cons_nomatch _ _ _ _ h2, pyReplace_cons_nomatch _ _ _ _ h3,
    pyReplace_cons_nomatch _ _ _ _ h4, pyReplace_cons_nomatch _ _ _ _ h5,
    pyReplace_cons_nomatch _ _ _ _ h6, pyReplace_cons_nomatch _ _ _ _ h7,
    pyReplace_cons_nomatch _ _ _ _ h8, pyReplace_cons_nomatch _ _ _ _ h9,
    pyReplace_cons_nomatch _ _ _ _ h10, pyReplace_cons_nomatch _ _ _ _ h11,
    pyReplace_cons_nomatch _ _ _ _ h12, pyReplace_cons_nomatch _ _ _ _ h13]

theorem uhelm_open (y X : List Char) :
    List.isPrefixOf ('_' :: 'H' :: y) (helmOpenMark ++ X) = false := by
  rw [show helmOpenMark ++ X =
    '_' :: '_' :: ('H' :: 'E' :: 'L' :: 'M' :: '_' :: 'O' :: 'P' :: 'E' :: 'N' :: '_' :: '_' :: X) from rfl,
    isPrefixOf_cons_cons, isPrefixOf_cons_cons,
    show (('H' : Char) == '_') = false from by decide]
  simp

theorem uhelm_close (y X : List Char) :
    List.isPrefixOf ('_' :: 'H' :: y) (helmCloseMark ++ X) = false := by
  rw [show helmCloseMark ++ X =
    '_' :: '_' :: ('H' :: 'E' :: 'L' :: 'M' :: '_' :: 'C' :: 'L' :: 'O' :: 'S' :: 'E' :: '_' :: '_' :: X) from rfl,
    isPrefixOf_cons_cons, isPrefixOf_cons_cons,
    show (('H' : Char) == '_') = false from by decide]
  simp

/-- Third pass: substituting the open marker by the emit-open expression
turns the marker form into the half-emitted form, for `HELM`-free input. -/
theorem stage3 : ∀ s : List Char, hasSubChars helmWord s = false →
    pyReplace helmOpenMark emitOpenExpr (emitWith helmOpenMark helmCloseMark (toks s)) =
      emitWith emitOpenExpr helmCloseMark (toks s)
  | [], _ => rfl
  | [a], _ => by
      have hp : helmOpenMark.isPrefixOf [a] = false := by
        rw [show helmOpenMark =
          '_' :: ('_' :: 'H' :: 'E' :: 'L' :: 'M' :: '_' :: 'O' :: 'P' :: 'E' :: 'N' :: '_' :: '_' :: []) from rfl,
          isPrefixOf_cons_cons]
        cases ('_' == a) <;> simp
      have he : emitWith helmOpenMark helmCloseMark (toks [a]) = [a] := rfl
      rw [he, pyReplace_cons_nomatch _ _ _ _ hp]
      rfl
  | a :: b :: r, hs => by
      by_cases hop : a = '\x7b' ∧ b = '\x7b'
      · rw [show toks (a :: b :: r) = .op :: toks r by simp [toks, hop.1, hop.2]]
        rw [show emitWith helmOpenMark helmCloseMark (.op :: toks r) =
          helmOpenMark ++ emitWith helmOpenMark helmCloseMark (toks r) from rfl]
        rw [pyReplace_match _ _ _ (by decide)]
        rw [stage3 r (hasSub_tail (hasSub_tail hs))]
        rfl
      · by_cases hcl : a = '\x7d' ∧ b = '\x7d'
        · rw [show toks (a :: b :: r) = .cl :: toks r by
            simp only [toks]
            rw [if_neg hop, if_pos hcl]]
          rw [show emitWith helmOpenMark helmCloseMark (.cl :: toks r) =
            helmCloseMark ++ emitWith helmOpenMark helmCloseMark (toks r) from rfl]
          rw [stepC_close _
            (helm_not_prefix_emit helmOpenMark helmCloseMark '_' '_' _ _ rfl rfl
              (Or.inl rfl) (Or.inl rfl) r _ (hasSub_tail (hasSub_tail hs)))
            (uhelm_not_prefix_emit helmOpenMark helmCloseMark '_' '_' _ _ rfl rfl
              (Or.inl rfl) (Or.inl rfl) uhelm_open uhelm_close r _
              (hasSub_tail (hasSub_tail hs)))]
          rw [stage3 r (hasSub_tail (hasSub_tail hs))]
          rfl
        · rw [show toks (a :: b :: r) = .chr a :: toks (b :: r) by
            simp only [toks]
            rw [if_neg hop, if_neg hcl]]
          rw [show emitWith helmOpenMark helmCloseMark (.chr a :: toks (b :: r)) =
            a :: emitWith helmOpenMark helmCloseMark (toks (b :: r)) from rfl]
          have hu := uhelm_not_prefix_emit helmOpenMark helmCloseMark '_' '_' _ _ rfl rfl
            (Or.inl rfl) (Or.inl rfl) uhelm_open uhelm_close (b :: r)
            ('_' :: 'O' :: 'P' :: 'E' :: 'N' :: '_' :: '_' :: []) (hasSub_tail hs)
          have hp : helmOpenMark.isPrefixOf
              (a :: emitWith helmOpenMark helmCloseMark (toks (b :: r))) = false := by
            show (('_' :: ('_' :: 'H' :: 'E' :: 'L' :: 'M' :: '_' :: 'O' :: 'P' :: 'E' :: 'N' :: '_' :: '_' :: [])).isPrefixOf
              (a :: emitWith helmOpenMark helmCloseMark (toks (b :: r)))) = false
            rw [isPrefixOf_cons_cons]
            cases ha : ('_' == a) with
            | false => rfl
            | true => rw [Bool.true_and]; exact hu
          rw [pyReplace_cons_nomatch _ _ _ _ hp]
          rw [stage3 (b :: r) (hasSub_tail hs)]
          rfl
termination_by s => s.length

theorem uhelm_eopen (y X : List Char) :
    List.isPrefixOf ('_' :: 'H' :: y) (emitOpenExpr ++ X) = false := by
  rw [show emitOpenExpr ++ X =
    '\x7b' :: ('\x7b' :: ' ' :: '"' :: '\x7b' :: '\x7b' :: '"' :: ' ' :: '\x7d' :: '\x7d' :: X) from rfl,
    isPrefixOf_cons_cons, show (('_' : Char) == '\x7b') = false from by decide]
  rfl

/-- Fourth pass: substituting the close marker by the emit-close expression
completes the escape, for `HELM`-free input. -/
theorem stage4 : ∀ s : List Char, hasSubChars helmWord s = false →
    pyReplace helmCloseMark emitCloseExpr (emitWith emitOpenExpr helmCloseMark (toks s)) =
      emitWith emitOpenExpr emitCloseExpr (toks s)
  | [], _ => rfl
  | [a], _ => by
      have hp : helmCloseMark.isPrefixOf [a] = false := by
        show (('_' :: ('_' :: 'H' :: 'E' :: 'L' :: 'M' :: '_' :: 'C' :: 'L' :: 'O' :: 'S' :: 'E' :: '_' :: '_' :: [])).isPrefixOf
          [a]) = false
        rw [isPrefixOf_cons_cons]
        cases ('_' == a) <;> simp
      have he : emitWith emitOpenExpr helmCloseMark (toks [a]) = [a] := rfl
      rw [he, pyReplace_cons_nomatch _ _ _ _ hp]
      rfl
  | a :: b :: r, hs => by
      by_cases hop : a = '\x7b' ∧ b = '\x7b'
      · rw [show toks (a :: b :: r) = .op :: toks r by simp [toks, hop.1, hop.2]]
        rw [show emitWith emitOpenExpr helmCloseMark (.op :: toks r) =
          emitOpenExpr ++ emitWith emitOpenExpr helmCloseMark (toks r) from rfl]
        rw [pyReplace_skip helmCloseMark emitCloseExpr '_'
          ('_' :: 'H' :: 'E' :: 'L' :: 'M' :: '_' :: 'C' :: 'L' :: 'O' :: 'S' :: 'E' :: '_' :: '_' :: [])
          rfl emitOpenExpr _ (by decide)]
        rw [stage4 r (hasSub_tail (hasSub_tail hs))]
        rfl
      · by_cases hcl : a = '\x7d' ∧ b = '\x7d'
        · rw [show toks (a :: b :: r) = .cl :: toks r by
            simp only [toks]
            rw [if_neg hop, if_pos hcl]]
          rw [show emitWith emitOpenExpr helmCloseMark (.cl :: toks r) =
            helmCloseMark ++ emitWith emitOpenExpr helmCloseMark (toks r) from rfl]
          rw [pyReplace_match _ _ _ (by decide)]
          rw [stage4 r (hasSub_tail (hasSub_tail hs))]
          rfl
        · rw [show toks (a :: b :: r) = .chr a :: toks (b :: r) by
            simp only [toks]
            rw [if_neg hop, if_neg hcl]]
          rw [show emitWith emitOpenExpr helmCloseMark (.chr a :: toks (b :: r)) =
            a :: emitWith emitOpenExpr helmCloseMark (toks (b :: r)) from rfl]
          have hu := uhelm_not_prefix_emit emitOpenExpr helmCloseMark '\x7b' '_' _ _ rfl rfl
            (Or.inr (Or.inl rfl)) (Or.inl rfl) uhelm_eopen uhelm_close (b :: r)
            ('_' :: 'C' :: 'L' :: 'O' :: 'S' :: 'E' :: '_' :: '_' :: []) (hasSub_tail hs)
          have hp : helmCloseMark.isPrefixOf
              (a :: emitWith emitOpenExpr helmCloseMark (toks (b :: r))) = false := by
            show (('_' :: ('_' :: 'H' :: 'E' :: 'L' :: 'M' :: '_' :: 'C' :: 'L' :: 'O' :: 'S' :: 'E' :: '_' :: '_' :: [])).isPrefixOf
              (a :: emitWith emitOpenExpr helmCloseMark (toks (b :: r)))) = false
            rw [isPrefixOf_cons_cons]
            cases ha : ('_' == a) with
            | false => rfl
            | true => rw [Bool.true_and]; exact hu
          rw [pyReplace_cons_nomatch _ _ _ _ hp]
          rw [stage4 (b :: r) (hasSub_tail hs)]
          rfl
termination_by s => s.length

/-- For `HELM`-free input the four replacement passes of the escape equal
the direct token-wise emission of the escaped form. -/
theorem escape_emits (s : List Char) (hs : hasSubChars helmWord s = false) :
    escapeGoChars s = emitWith emitOpenExpr emitCloseExpr (toks s) := by
  show pyReplace helmCloseMark emitCloseExpr
      (pyReplace helmOpenMark emitOpenExpr
        (pyReplace closeDelim helmCloseMark
          (pyReplace openDelim helmOpenMark s))) = _
  rw [stage12 s, stage3 s hs, stage4 s hs]

theorem unescapeGoGo_fuel : ∀ (f : Nat) (s : List Char),
    s.length ≤ f → unescapeGoGo f s = unescapeGoGo s.length s
  | 0, s, hle => by
      have : s = [] := by
        cases s with
        | nil => rfl
        | cons c t => simp at hle
      subst this
      rfl
  | f + 1, [], _ => rfl
  | f + 1, c :: t, hle => by
      by_cases h1 : emitOpenExpr.isPrefixOf (c :: t) = true
      · have hd1 : ((c :: t).drop emitOpenExpr.length).length ≤ f := by
          simp only [List.length_drop, List.length_cons]
          simp only [List.length_cons] at hle
          have : 1 ≤ emitOpenExpr.length := by decide
          omega
        have hd2 : ((c :: t).drop emitOpenExpr.length).length ≤ t.length := by
          simp only [List.length_drop, List.length_cons]
          have : 1 ≤ emitOpenExpr.length := by decide
          omega
        show unescapeGoGo (f + 1) (c :: t) = unescapeGoGo (t.length + 1) (c :: t)
        rw [unescapeGoGo, unescapeGoGo, if_pos h1, if_pos h1]
        rw [unescapeGoGo_fuel f _ hd1, unescapeGoGo_fuel t.length _ hd2]
      · by_cases h2 : emitCloseExpr.isPrefixOf (c :: t) = true
        · have hd1 : ((c :: t).drop emitCloseExpr.length).length ≤ f := by
            simp only [List.length_drop, List.length_cons]
            simp only [List.length_cons] at hle
            have : 1 ≤ emitCloseExpr.length := by decide
            omega
          have hd2 : ((c :: t).drop emitCloseExpr.length).length ≤ t.length := by
            simp only [List.length_drop, List.length_cons]
            have : 1 ≤ emitCloseExpr.length := by decide
            omega
          show unescapeGoGo (f + 1) (c :: t) = unescapeGoGo (t.length + 1) (c :: t)
          rw [unescapeGoGo, unescapeGoGo, if_neg h1, if_neg h1, if_pos h2, if_pos h2]
          rw [unescapeGoGo_fuel f _ hd1, unescapeGoGo_fuel t.length _ hd2]
        · have hlt : t.length ≤ f := by
            simp only [List.length_cons] at hle
            omega
          show unescapeGoGo (f + 1) (c :: t) = unescapeGoGo (t.length + 1) (c :: t)
          rw [unescapeGoGo, unescapeGoGo, if_neg h1, if_neg h1, if_neg h2, if_neg h2]
          rw [unescapeGoGo_fuel f t hlt]

theorem unescape_open (v : List Char) :
    unescapeGo (emitOpenExpr ++ v) = openDelim ++ unescapeGo v := by
  show unescapeGoGo
    ('\x7b' :: (('\x7b' :: ' ' :: '"' :: '\x7b' :: '\x7b' :: '"' :: ' ' :: '\x7d' :: '\x7d' :: []) ++ v)).length
    ('\x7b' :: (('\x7b' :: ' ' :: '"' :: '\x7b' :: '\x7b' :: '"' :: ' ' :: '\x7d' :: '\x7d' :: []) ++ v)) = _
  rw [show ('\x7b' :: (('\x7b' :: ' ' :: '"' :: '\x7b' :: '\x7b' :: '"' :: ' ' :: '\x7d' :: '\x7d' :: []) ++ v)).length
    = (('\x7b' :: ' ' :: '"' :: '\x7b' :: '\x7b' :: '"' :: ' ' :: '\x7d' :: '\x7d' :: []) ++ v).length + 1 from rfl,
    unescapeGoGo]
  rw [if_pos (show emitOpenExpr.isPrefixOf
    ('\x7b' :: (('\x7b' :: ' ' :: '"' :: '\x7b' :: '\x7b' :: '"' :: ' ' :: '\x7d' :: '\x7d' :: []) ++ v)) = true
    from isPrefixOf_append_self emitOpenExpr v)]
  rw [show ('\x7b' :: (('\x7b' :: ' ' :: '"' :: '\x7b' :: '\x7b' :: '"' :: ' ' :: '\x7d' :: '\x7d' :: []) ++ v)).drop
    emitOpenExpr.length = v from List.drop_left emitOpenExpr v]
  rw [unescapeGoGo_fuel _ v (by simp; omega)]
  rfl

theorem unescape_close (v : List Char) :
    unescapeGo (emitCloseExpr ++ v) = closeDelim ++ unescapeGo v := by
  show unescapeGoGo
    ('\x7b' :: (('\x7b' :: ' ' :: '"' :: '\x7d' :: '\x7d' :: '"' :: ' ' :: '\x7d' :: '\x7d' :: []) ++ v)).length
    ('\x7b' :: (('\x7b' :: ' ' :: '"' :: '\x7d' :: '\x7d' :: '"' :: ' ' :: '\x7d' :: '\x7d' :: []) ++ v)) = _
  rw [show ('\x7b' :: (('\x7b' :: ' ' :: '"' :: '\x7d' :: '\x7d' :: '"' :: ' ' :: '\x7d' :: '\x7d' :: []) ++ v)).length
    = (('\x7b' :: ' ' :: '"' :: '\x7d' :: '\x7d' :: '"' :: ' ' :: '\x7d' :: '\x7d' :: []) ++ v).length + 1 from rfl,
    unescapeGoGo]
  rw [if_neg (show ¬ emitOpenExpr.isPrefixOf
    ('\x7b' :: (('\x7b' :: ' ' :: '"' :: '\x7d' :: '\x7d' :: '"' :: ' ' :: '\x7d' :: '\x7d' :: []) ++ v)) = true
    from by
      rw [show ('\x7b' :: (('\x7b' :: ' ' :: '"' :: '\x7d' :: '\x7d' :: '"' :: ' ' :: '\x7d' :: '\x7d' :: []) ++ v))
        = emitCloseExpr ++ v from rfl,
        notpre_take emitOpenExpr emitCloseExpr v (by decide)]
      exact Bool.false_ne_true)]
  rw [if_pos (show emitCloseExpr.isPrefixOf
    ('\x7b' :: (('\x7b' :: ' ' :: '"' :: '\x7d' :: '\x7d' :: '"' :: ' ' :: '\x7d' :: '\x7d' :: []) ++ v)) = true
    from isPrefixOf_append_self emitCloseExpr v)]
  rw [show ('\x7b' :: (('\x7b' :: ' ' :: '"' :: '\x7d' :: '\x7d' :: '"' :: ' ' :: '\x7d' :: '\x7d' :: []) ++ v)).drop
    emitCloseExpr.length = v from List.drop_left emitCloseExpr v]
  rw [unescapeGoGo_fuel _ v (by simp; omega)]
  rfl

theorem unescape_chr (c : Char) (v : List Char)
    (h1 : emitOpenExpr.isPrefixOf (c :: v) = false)
    (h2 : emitCloseExpr.isPrefixOf (c :: v) = false) :
    unescapeGo (c :: v) = c :: unescapeGo v := by
  show unescapeGoGo (v.length + 1) (c :: v) = _
  rw [unescapeGoGo, if_neg (by simp [h1]), if_neg (by simp [h2])]
  rfl

theorem emit_head_shape : ∀ (b : Char) (r : List Char), b ≠ '\x7b' →
    (∃ w, emitWith emitOpenExpr emitCloseExpr (toks (b :: r)) = emitCloseExpr ++ w) ∨
    (∃ w, emitWith emitOpenExpr emitCloseExpr (toks (b :: r)) = b :: w)
  | b, [], _ => .inr ⟨[], rfl⟩
  | b, c :: r', hb => by
      by_cases hcl : b = '\x7d' ∧ c = '\x7d'
      · left
        refine ⟨emitWith emitOpenExpr emitCloseExpr (toks r'), ?_⟩
        rw [show toks (b :: c :: r') = .cl :: toks r' by
          simp only [toks]
          rw [if_neg (fun h => hb h.1), if_pos hcl]]
        rfl
      · right
        refine ⟨emitWith emitOpenExpr emitCloseExpr (toks (c :: r')), ?_⟩
        rw [show toks (b :: c :: r') = .chr b :: toks (c :: r') by
          simp only [toks]
          rw [if_neg (fun h => hb h.1), if_neg hcl]]
        rfl

/-- Helm evaluation of the emitted escaped form recovers the source. -/
theorem unescape_emit : ∀ s : List Char,
    unescapeGo (emitWith emitOpenExpr emitCloseExpr (toks s)) = s
  | [] => rfl
  | [a] => by
      have h1 : emitOpenExpr.isPrefixOf [a] = false := by
        show (('\x7b' :: ('\x7b' :: ' ' :: '"' :: '\x7b' :: '\x7b' :: '"' :: ' ' :: '\x7d' :: '\x7d' :: [])).isPrefixOf
          [a]) = false
        rw [isPrefixOf_cons_cons]
        cases ('\x7b' == a) <;> simp
      have h2 : emitCloseExpr.isPrefixOf [a] = false := by
        show (('\x7b' :: ('\x7b' :: ' ' :: '"' :: '\x7d' :: '\x7d' :: '"' :: ' ' :: '\x7d' :: '\x7d' :: [])).isPrefixOf
          [a]) = false
        rw [isPrefixOf_cons_cons]
        cases ('\x7b' == a) <;> simp
      rw [show emitWith emitOpenExpr emitCloseExpr (toks [a]) = [a] from rfl,
        unescape_chr a [] h1 h2]
      rfl
  | a :: b :: r => by
      by_cases hop : a = '\x7b' ∧ b = '\x7b'
      · rw [show toks (a :: b :: r) = .op :: toks r by simp [toks, hop.1, hop.2]]
        rw [show emitWith emitOpenExpr emitCloseExpr (.op :: toks r) =
          emitOpenExpr ++ emitWith emitOpenExpr emitCloseExpr (toks r) from rfl]
        rw [unescape_open, unescape_emit r]
        obtain ⟨rfl, rfl⟩ := hop
        rfl
      · by_cases hcl : a = '\x7d' ∧ b = '\x7d'
        · rw [show toks (a :: b :: r) = .cl :: toks r by
            simp only [toks]
            rw [if_neg hop, if_pos hcl]]
          rw [show emitWith emitOpenExpr emitCloseExpr (.cl :: toks r) =
            emitCloseExpr ++ emitWith emitOpenExpr emitCloseExpr (toks r) from rfl]
          rw [unescape_close, unescape_emit r]
          obtain ⟨rfl, rfl⟩ := hcl
          rfl
        · rw [show toks (a :: b :: r) = .chr a :: toks (b :: r) by
            simp only [toks]
            rw [if_neg hop, if_neg hcl]]
          rw [show emitWith emitOpenExpr emitCloseExpr (.chr a :: toks (b :: r)) =
            a :: emitWith emitOpenExpr emitCloseExpr (toks (b :: r)) from rfl]
          by_cases ha : a = '\x7b'
          · subst ha
            have hb : b ≠ '\x7b' := fun h => hop ⟨rfl, h⟩
            rcases emit_head_shape b r hb with ⟨w, hw⟩ | ⟨w, hw⟩
            · have h1 : emitOpenExpr.isPrefixOf ('\x7b' :: (emitCloseExpr ++ w)) = false :=
                notpre_take emitOpenExpr ('\x7b' :: emitCloseExpr) w (by decide)
              have h2 : emitCloseExpr.isPrefixOf ('\x7b' :: (emitCloseExpr ++ w)) = false :=
                notpre_take emitCloseExpr ('\x7b' :: emitCloseExpr) w (by decide)
              rw [← hw] at h1 h2
              rw [unescape_chr _ _ h1 h2, unescape_emit (b :: r)]
            · have hbb : (('\x7b' : Char) == b) = false := by
                rw [beq_eq_false_iff_ne]
                exact fun h => hb h.symm
              have h1 : emitOpenExpr.isPrefixOf ('\x7b' :: b :: w) = false := by
                show (('\x7b' :: '\x7b' :: (' ' :: '"' :: '\x7b' :: '\x7b' :: '"' :: ' ' :: '\x7d' :: '\x7d' :: [])).isPrefixOf
                  ('\x7b' :: b :: w)) = false
                rw [isPrefixOf_cons_cons, isPrefixOf_cons_cons, hbb]
                simp
              have h2 : emitCloseExpr.isPrefixOf ('\x7b' :: b :: w) = false := by
                show (('\x7b' :: '\x7b' :: (' ' :: '"' :: '\x7d' :: '\x7d' :: '"' :: ' ' :: '\x7d' :: '\x7d' :: [])).isPrefixOf
                  ('\x7b' :: b :: w)) = false
                rw [isPrefixOf_cons_cons, isPrefixOf_cons_cons, hbb]
                simp
              rw [← hw] at h1 h2
              rw [unescape_chr _ _ h1 h2, unescape_emit (b :: r)]
          · have haa : (('\x7b' : Char) == a) = false := by
              rw [beq_eq_false_iff_ne]
              exact fun h => ha h.symm
            have h1 : emitOpenExpr.isPrefixOf
                (a :: emitWith emitOpenExpr emitCloseExpr (toks (b :: r))) = false := by
              show (('\x7b' :: ('\x7b' :: ' ' :: '"' :: '\x7b' :: '\x7b' :: '"' :: ' ' :: '\x7d' :: '\x7d' :: [])).isPrefixOf
                (a :: emitWith emitOpenExpr emitCloseExpr (toks (b :: r)))) = false
              rw [isPrefixOf_cons_cons, haa]
              rfl
            have h2 : emitCloseExpr.isPrefixOf
                (a :: emitWith emitOpenExpr emitCloseExpr (toks (b :: r))) = false := by
              show (('\x7b' :: ('\x7b' :: ' ' :: '"' :: '\x7d' :: '\x7d' :: '"' :: ' ' :: '\x7d' :: '\x7d' :: [])).isPrefixOf
                (a :: emitWith emitOpenExpr emitCloseExpr (toks (b :: r)))) = false
              rw [isPrefixOf_cons_cons, haa]
              rfl
            rw [unescape_chr _ _ h1 h2, unescape_emit (b :: r)]
termination_by s => s.length

theorem contains_cons_chars (d : Char) (l : List Char) (c : Char) :
    (d :: l).contains c = ((c == d) || l.contains c) := by
  cases h : (c == d) <;> simp [List.contains, List.elem, h]

theorem contains_append_chars (u v : List Char) (c : Char) :
    (u ++ v).contains c = (u.contains c || v.contains c) := by
  induction u with
  | nil => simp [List.contains, List.elem]
  | cons d u ih =>
      rw [List.cons_append, contains_cons_chars, contains_cons_chars, ih, Bool.or_assoc]

/-- The emitted escaped form contains a newline exactly when the source
does: the inserted delimiter expressions are newline-free. -/
theorem emit_contains_nl : ∀ s : List Char,
    (emitWith emitOpenExpr emitCloseExpr (toks s)).contains '\n' = s.contains '\n'
  | [] => rfl
  | [a] => rfl
  | a :: b :: r => by
      by_cases hop : a = '\x7b' ∧ b = '\x7b'
      · rw [show toks (a :: b :: r) = .op :: toks r by simp [toks, hop.1, hop.2]]
        rw [show emitWith emitOpenExpr emitCloseExpr (.op :: toks r) =
          emitOpenExpr ++ emitWith emitOpenExpr emitCloseExpr (toks r) from rfl]
        rw [contains_append_chars, show emitOpenExpr.contains '\n' = false from by decide,
          Bool.false_or, emit_contains_nl r]
        obtain ⟨rfl, rfl⟩ := hop
        rw [contains_cons_chars, contains_cons_chars,
          show (('\n' : Char) == '\x7b') = false from by decide]
        simp
      · by_cases hcl : a = '\x7d' ∧ b = '\x7d'
        · rw [show toks (a :: b :: r) = .cl :: toks r by
            simp only [toks]
            rw [if_neg hop, if_pos hcl]]
          rw [show emitWith emitOpenExpr emitCloseExpr (.cl :: toks r) =
            emitCloseExpr ++ emitWith emitOpenExpr emitCloseExpr (toks r) from rfl]
          rw [contains_append_chars, show emitCloseExpr.contains '\n' = false from by decide,
            Bool.false_or, emit_contains_nl r]
          obtain ⟨rfl, rfl⟩ := hcl
          rw [contains_cons_chars, contains_cons_chars,
            show (('\n' : Char) == '\x7d') = false from by decide]
          simp
        · rw [show toks (a :: b :: r) = .chr a :: toks (b :: r) by
            simp only [toks]
            rw [if_neg hop, if_neg hcl]]
          rw [show emitWith emitOpenExpr emitCloseExpr (.chr a :: toks (b :: r)) =
            a :: emitWith emitOpenExpr emitCloseExpr (toks (b :: r)) from rfl]
          rw [contains_cons_chars, contains_cons_chars, emit_contains_nl (b :: r)]
termination_by s => s.length

/-- C3 (amended): for every string that does not contain the substring
`HELM`, unescaping (Helm-evaluating) the escaped form returns the string
exactly - including adjacent delimiter sequences such as four open braces
in a row - and the literal-block re-emission flag of
`_escape_go_templates_in_resource` fires exactly when the source string
contains an embedded newline.  The restriction is necessary: the original
claim's "for every string s" fails on strings that contain the internal
placeholder `__HELM_OPEN__` (see the counterexample). -/
theorem c3_escape_roundtrip (s : List Char)
    (hs : hasSubChars helmWord s = false) :
    unescapeGo (escapeGoChars s) = s ∧
    (escape_go_str (String.mk s)).2 = s.contains '\n' := by
  constructor
  · rw [escape_emits s hs, unescape_emit s]
  · show (escapeGoChars s).contains '\n' = s.contains '\n'
    rw [escape_emits s hs, emit_contains_nl s]

/-- C3 counterexample: the claim as stated ("for any string s") is false -
a string equal to the internal open placeholder is escaped into the
emit-open expression, which Helm evaluation turns into the two-brace
delimiter, not the original text. -/
theorem c3_escape_roundtrip_cex :
    unescapeGo (escapeGoChars
      ('_' :: '_' :: 'H' :: 'E' :: 'L' :: 'M' :: '_' :: 'O' :: 'P' :: 'E' :: 'N' :: '_' :: '_' :: [])) ≠
    ('_' :: '_' :: 'H' :: 'E' :: 'L' :: 'M' :: '_' :: 'O' :: 'P' :: 'E' :: 'N' :: '_' :: '_' :: []) := by
  decide

theorem c3_escape_roundtrip_witness :
    hasSubChars helmWord "a: \x7b\x7b\x7b\x7b .V \x7d\x7d\nb".data = false ∧
    (unescapeGo (escapeGoChars "a: \x7b\x7b\x7b\x7b .V \x7d\x7d\nb".data) =
      "a: \x7b\x7b\x7b\x7b .V \x7d\x7d\nb".data ∧
     (escape_go_str (String.mk "a: \x7b\x7b\x7b\x7b .V \x7d\x7d\nb".data)).2 =
      "a: \x7b\x7b\x7b\x7b .V \x7d\x7d\nb".data.contains '\n') :=
  ⟨by decide, c3_escape_roundtrip _ (by decide)⟩

theorem subLookup_shadow : ∀ (t b : VMap) (k : String) (v : Val),
    t.hasKey k = false → subLookupB b t = true → subLookupB (VMap.cons k v b) t = true
  | .nil, _, _, _, _, _ => rfl
  | .cons k' v' t', b, k, v, hk, hs => by
      by_cases hkk : k' = k
      · exfalso
        rw [VMap.hasKey,
          show VMap.lookup (VMap.cons k' v' t') k = some v' by
            rw [VMap.lookup, if_pos hkk]] at hk
        simp at hk
      · simp only [subLookupB, Bool.and_eq_true] at hs ⊢
        refine ⟨?_, subLookup_shadow t' b k v ?_ hs.2⟩
        · rw [show (VMap.cons k v b).lookup k' = b.lookup k' by
            rw [VMap.lookup, if_neg (fun h => hkk h.symm)]]
          exact hs.1
        · rw [VMap.hasKey] at hk ⊢
          rw [show VMap.lookup (VMap.cons k' v' t') k = t'.lookup k by
            rw [VMap.lookup, if_neg hkk]] at hk
          exact hk

theorem subLookup_self : ∀ (a : VMap), nodupKeysB a = true → subLookupB a a = true
  | .nil, _ => rfl
  | .cons k v t, hnd => by
      simp only [nodupKeysB, Bool.and_eq_true, Bool.not_eq_true'] at hnd
      obtain ⟨hk, hnd'⟩ := hnd
      simp only [subLookupB, Bool.and_eq_true]
      constructor
      · rw [show (VMap.cons k v t).lookup k = some v by rw [VMap.lookup, if_pos rfl]]
        simp
      · exact subLookup_shadow t t k v hk (subLookup_self t hnd')

mutual
theorem pyEq_refl : ∀ v : Val, wfValB v = true → pyEq v v = true
  | vNull, _ => rfl
  | vStr s, _ => by simp [pyEq]
  | vBool b, _ => by cases b <;> simp [pyEq, pyNumVal]
  | vInt n, _ => by simp [pyEq, pyNumVal]
  | vFloat ip f, hwf => by
      simp only [wfValB] at hwf
      obtain ⟨d, hd⟩ := Option.isSome_iff_exists.mp hwf
      simp [pyEq, pyNumVal, hd]
  | vList l, hwf => by
      simp only [wfValB] at hwf
      simp [pyEq, pyEqList_refl l hwf]
  | vMap m, hwf => by
      simp only [wfValB, Bool.and_eq_true] at hwf
      simp [pyEq, pyEqMapSub_of_subLookup m m hwf.2 (subLookup_self m hwf.1)]
theorem pyEqList_refl : ∀ l : VList, wfVListB l = true → pyEqList l l = true
  | .nil, _ => rfl
  | .cons x xs, hwf => by
      simp only [wfVListB, Bool.and_eq_true] at hwf
      simp [pyEqList, pyEq_refl x hwf.1, pyEqList_refl xs hwf.2]
theorem pyEqMapSub_of_subLookup : ∀ (m b : VMap), wfVMapB m = true →
    subLookupB b m = true → pyEqMapSub m b = true
  | .nil, _, _, _ => rfl
  | .cons k v t, b, hwf, hsl => by
      simp only [wfVMapB, Bool.and_eq_true] at hwf
      simp only [subLookupB, Bool.and_eq_true] at hsl
      obtain ⟨h1, h2⟩ := hsl
      simp only [pyEqMapSub, Bool.and_eq_true]
      constructor
      · cases hb : b.lookup k with
        | none => rw [hb] at h1; simp at h1
        | some w =>
            rw [hb] at h1
            have hwv : w = v := by simpa using h1
            show pyEq v w = true
            rw [hwv]
            exact pyEq_refl v hwf.1
      · exact pyEqMapSub_of_subLookup t b hwf.2 h2
end

theorem contains_of_mem_str : ∀ (l : List String) (x : String), x ∈ l → l.contains x = true
  | [], x, h => absurd h (List.not_mem_nil x)
  | y :: t, x, h => by
      rcases List.mem_cons.mp h with rfl | h'
      · simp [List.contains, List.elem]
      · have ih := contains_of_mem_str t x h'
        show List.elem x (y :: t) = true
        rw [List.elem]
        cases hxy : (x == y)
        · exact ih
        · rfl

theorem setEqStrs_self (l : List String) : setEqStrs l l = true := by
  simp only [setEqStrs, Bool.and_eq_true, List.all_eq_true]
  exact ⟨fun x hx => contains_of_mem_str l x hx, fun x hx => contains_of_mem_str l x hx⟩

theorem normCMData_filterOut : ∀ m : VMap,
    normCMData (m.filterOut "_example") = normCMData m
  | .nil => rfl
  | .cons k v t => by
      by_cases hk : k = "_example"
      · simp only [VMap.filterOut, normCMData, if_pos hk]
        exact normCMData_filterOut t
      · simp only [VMap.filterOut, normCMData, if_neg hk]
        rw [normCMData_filterOut t]

theorem cmpDataKeys_self : ∀ (m b : VMap), dataSelfOkB b m = true →
    cmpDataKeys b m = .ok []
  | .nil, b, _ => rfl
  | .cons k v t, b, h => by
      simp only [dataSelfOkB, Bool.and_eq_true] at h
      obtain ⟨h1, h2⟩ := h
      cases v with
      | vStr s =>
          simp only [Bool.and_eq_true] at h1
          obtain ⟨hl, hj⟩ := h1
          have hlk : b.lookup k = some (vStr s) := by
            cases hb : b.lookup k with
            | none => rw [hb] at hl; simp at hl
            | some w =>
                rw [hb] at hl
                rw [show w = vStr s from by simpa using hl]
          rw [cmpDataKeys]
          simp only [Res.bind_ok, Res.pure_eq, hlk]
          cases hjl : jsonLoads s with
          | none =>
              simp only [hjl, Res.bind_ok, Res.pure_eq]
              rw [show pyEq (vStr s) (vStr s) = true by simp [pyEq]]
              simp only [if_true, Res.bind_ok]
              rw [cmpDataKeys_self t b h2]
              rfl
          | some x =>
              rw [hjl] at hj
              simp only [hjl, Res.bind_ok, Res.pure_eq]
              rw [pyEq_refl (sort_dict_deep x) hj]
              simp only [if_true, Res.bind_ok]
              rw [cmpDataKeys_self t b h2]
              rfl
      | vNull => simp at h1
      | vBool b' => simp at h1
      | vInt n => simp at h1
      | vFloat ip f => simp at h1
      | vList l => simp at h1
      | vMap m' => simp at h1

/-- C10: the `_example` config-data key is ignored on both sides - by
`normalize_resource`'s data normalization (`normCMData` drops it before
scalar-parsing the rest) and by `compare_configmap_data` (which filters it
out of both key sets and the per-key loop) - so two ConfigMaps whose data
differs only in the `_example` entry normalize identically and compare as
"All data fields match", for well-formed string-valued data. -/
theorem c10_example_key_ignored (m1 m2 : VMap)
    (heq : m1.filterOut "_example" = m2.filterOut "_example")
    (hok : dataSelfOkB (m2.filterOut "_example") (m1.filterOut "_example") = true) :
    normCMData m1 = normCMData m2 ∧
    compare_configmap_data (vMap (VMap.cons "data" (vMap m1) .nil))
      (vMap (VMap.cons "data" (vMap m2) .nil)) =
      .ok (true, "All data fields match") := by
  constructor
  · rw [← normCMData_filterOut m1, ← normCMData_filterOut m2, heq]
  · have hg1 : pyGet (vMap (VMap.cons "data" (vMap m1) .nil)) "data" (vMap .nil) =
        .ok (vMap m1) := by
      simp [pyGet, VMap.lookup]
    have hg2 : pyGet (vMap (VMap.cons "data" (vMap m2) .nil)) "data" (vMap .nil) =
        .ok (vMap m2) := by
      simp [pyGet, VMap.lookup]
    rw [compare_configmap_data, hg1]
    simp only [Res.bind_ok]
    rw [hg2]
    simp only [Res.bind_ok, expectMap, Res.bind_ok]
    have hok' := hok
    rw [heq] at hok'
    rw [heq, setEqStrs_self]
    simp only [not_true, if_false]
    rw [cmpDataKeys_self _ _ hok']
    simp

theorem c10_example_key_ignored_witness :
    (VMap.cons "ingress" (vStr "\x7b\"a\": 1\x7d")
        (VMap.cons "_example" (vStr "example text") .nil)).filterOut "_example" =
      (VMap.cons "ingress" (vStr "\x7b\"a\": 1\x7d") VMap.nil).filterOut "_example" ∧
    (normCMData (VMap.cons "ingress" (vStr "\x7b\"a\": 1\x7d")
        (VMap.cons "_example" (vStr "example text") .nil)) =
      normCMData (VMap.cons "ingress" (vStr "\x7b\"a\": 1\x7d") VMap.nil) ∧
     compare_configmap_data
        (vMap (VMap.cons "data"
          (vMap (VMap.cons "ingress" (vStr "\x7b\"a\": 1\x7d")
            (VMap.cons "_example" (vStr "example text") .nil))) .nil))
        (vMap (VMap.cons "data"
          (vMap (VMap.cons "ingress" (vStr "\x7b\"a\": 1\x7d") VMap.nil)) .nil)) =
      .ok (true, "All data fields match")) :=
  ⟨by decide, c10_example_key_ignored _ _ (by decide) (by decide)⟩

/-- C8 (amended): label normalization coerces the native number `1.0` and
the string `"1.0"` to the same string, so the two label values compare
equal after normalization; for any common resource whose raw documents
differ while the normalized documents compare equal, the comparison loop
keeps the verdict passing and records no critical difference - but it does
record the resource as a minor (cosmetic) difference, so the difference is
reported as a warning rather than not at all. -/
theorem c8_numeric_label_stability (key : String) (d1 d2 n1 n2 : Val)
    (hkey : key ≠ "ConfigMap/kserve/inferenceservice-config")
    (hraw : pyEq d1 d2 = false)
    (hnorm : pyEq n1 n2 = true) :
    normalize_labels_annotations (vStr "1.0") = normalize_labels_annotations (vFloat 1 "0") ∧
    processKey [(key, d1)] [(key, d2)] [(key, n1)] [(key, n2)] none
      ⟨true, [], []⟩ key = .ok ⟨true, [], [key]⟩ := by
  have hfw : ∀ v : Val, firstWithKey [(key, v)] key = .ok v := fun v => by
    rw [firstWithKey, if_pos rfl]
  have hll : ∀ v : Val, lookupLast [(key, v)] key = .ok v := fun v => by
    rw [lookupLast]
    show (if key = key then Res.ok v else Res.err PyErr.val) = Res.ok v
    rw [if_pos rfl]
  constructor
  · rfl
  · rw [processKey, hfw d1]
    simp only [Res.bind_ok]
    rw [hfw d2]
    simp only [Res.bind_ok]
    rw [if_neg hkey]
    simp only [Res.pure_eq, Res.bind_ok]
    rw [hll n1]
    simp only [Res.bind_ok]
    rw [hll n2]
    simp only [Res.bind_ok]
    rw [if_pos (show ¬ pyEq d1 d2 = true by rw [hraw]; exact Bool.false_ne_true),
      if_pos hnorm]
    rfl

/-- C8 counterexample: on a full run with the label value `"1.0"` on one
side and the native number `1.0` on the other, the difference IS reported
- the resource appears in the minor-differences list of the report (the
source prints it under a warning header) - contradicting the claim's "the
difference is not reported"; the verdict still passes. -/
theorem c8_numeric_label_cex :
    compare_resources [mkLabeledDoc "Pod" "x" "version" (vStr "1.0") .nil]
      [mkLabeledDoc "Pod" "x" "version" (vFloat 1 "0") .nil] "numeric-label" none true =
    .ok (true,
      { testName := "numeric-label"
        kustomizeCount := 1
        helmCount := 1
        namespaceOnly := []
        otherOnlyKustomize := []
        onlyInHelm := []
        commonCount := 1
        criticalDiffs := []
        minorDiffs := ["Pod/x"] }) ∧ (["Pod/x"] : List String) ≠ [] := by
  constructor
  · decide
  · decide

theorem c8_numeric_label_stability_witness :
    ("Pod/x" ≠ "ConfigMap/kserve/inferenceservice-config" ∧
      pyEq (mkLabeledDoc "Pod" "x" "version" (vStr "1.0") .nil)
        (mkLabeledDoc "Pod" "x" "version" (vFloat 1 "0") .nil) = false ∧
      pyEq (mkLabeledDoc "Pod" "x" "version" (vStr "1.0") .nil)
        (mkLabeledDoc "Pod" "x" "version" (vStr "1.0") .nil) = true) ∧
    (normalize_labels_annotations (vStr "1.0") =
        normalize_labels_annotations (vFloat 1 "0") ∧
      processKey [("Pod/x", mkLabeledDoc "Pod" "x" "version" (vStr "1.0") .nil)]
        [("Pod/x", mkLabeledDoc "Pod" "x" "version" (vFloat 1 "0") .nil)]
        [("Pod/x", mkLabeledDoc "Pod" "x" "version" (vStr "1.0") .nil)]
        [("Pod/x", mkLabeledDoc "Pod" "x" "version" (vStr "1.0") .nil)] none
        ⟨true, [], []⟩ "Pod/x" = .ok ⟨true, [], ["Pod/x"]⟩) :=
  ⟨⟨by decide, by decide, by decide⟩,
    c8_numeric_label_stability "Pod/x" _ _ _ _ (by decide) (by decide) (by decide)⟩

theorem cmpPathField_self (d p : Val) (label : String) (h : pathRes d p = true) :
    cmpPathField d d p label = .ok [] := by
  rw [pathRes] at h
  cases hg : get_value_from_path d p with
  | err e => rw [hg] at h; simp at h
  | ok v =>
      rw [hg] at h
      simp [cmpPathField, hg, pyEq_refl v h]

theorem compare_mapped_fields_self (d : Val) (m : VMap)
    (h : mapperEntryPathsOk (vMap m) d = true) :
    compare_mapped_fields d d (vMap m) = .ok (true, []) := by
  simp only [mapperEntryPathsOk, Bool.and_eq_true] at h
  obtain ⟨himg, hres⟩ := h
  rw [compare_mapped_fields, pyIn_hasKey]
  simp only [Res.bind_ok]
  have himgBlock : (if m.hasKey "image" = true then do
      let img ← vSub (vMap m) "image"
      let hasRepo ← pyIn "repository" img
      let d1 ← (if hasRepo then do
          let repo ← vSub img "repository"
          let hasPath ← pyIn "path" repo
          if hasPath then do
            let path ← vSub repo "path"
            cmpPathField d d path "image.repository"
          else pure []
        else pure [])
      let hasTag ← pyIn "tag" img
      let d2 ← (if hasTag then do
          let tag ← vSub img "tag"
          let hasPath ← pyIn "path" tag
          if hasPath then do
            let path ← vSub tag "path"
            cmpPathField d d path "image.tag"
          else pure []
        else pure [])
      pure (d1 ++ d2)
    else pure ([] : List String)) = .ok [] := by
    cases hI : m.lookup "image" with
    | none =>
        rw [show m.hasKey "image" = false by simp [VMap.hasKey, hI]]
        rw [if_neg Bool.false_ne_true]
        rfl
    | some img =>
        rw [hI] at himg
        rw [show m.hasKey "image" = true by simp [VMap.hasKey, hI]]
        rw [if_pos rfl, vSub_lookup hI]
        simp only [Res.bind_ok]
        cases img with
        | vMap im =>
            simp only [Bool.and_eq_true] at himg
            obtain ⟨hrepo, htag⟩ := himg
            rw [pyIn_hasKey]
            simp only [Res.bind_ok]
            have hrepoBlock : (if im.hasKey "repository" = true then do
                let repo ← vSub (vMap im) "repository"
                let hasPath ← pyIn "path" repo
                if hasPath then do
                  let path ← vSub repo "path"
                  cmpPathField d d path "image.repository"
                else pure []
              else pure ([] : List String)) = .ok [] := by
              cases hR : im.lookup "repository" with
              | none =>
                  rw [show im.hasKey "repository" = false by simp [VMap.hasKey, hR]]
                  rw [if_neg Bool.false_ne_true]
                  rfl
              | some repo =>
                  rw [hR] at hrepo
                  rw [show im.hasKey "repository" = true by simp [VMap.hasKey, hR]]
                  rw [if_pos rfl, vSub_lookup hR]
                  simp only [Res.bind_ok]
                  cases repo with
                  | vMap rm =>
                      have hrepo2 : (match rm.lookup "path" with
                          | none => true
                          | some p => pathRes d p) = true := hrepo
                      rw [pyIn_hasKey]
                      simp only [Res.bind_ok]
                      cases hP : rm.lookup "path" with
                      | none =>
                          rw [show rm.hasKey "path" = false by simp [VMap.hasKey, hP]]
                          rw [if_neg Bool.false_ne_true]
                          rfl
                      | some p =>
                          rw [hP] at hrepo2
                          rw [show rm.hasKey "path" = true by simp [VMap.hasKey, hP]]
                          rw [if_pos rfl, vSub_lookup hP]
                          simp only [Res.bind_ok]
                          exact cmpPathField_self d p "image.repository" hrepo2
                  | vNull => exact absurd hrepo Bool.false_ne_true
                  | vBool b => exact absurd hrepo Bool.false_ne_true
                  | vInt n => exact absurd hrepo Bool.false_ne_true
                  | vFloat ip f => exact absurd hrepo Bool.false_ne_true
                  | vStr s => exact absurd hrepo Bool.false_ne_true
                  | vList l => exact absurd hrepo Bool.false_ne_true
            rw [hrepoBlock]
            simp only [Res.bind_ok]
            rw [pyIn_hasKey]
            simp only [Res.bind_ok]
            have htagBlock : (if im.hasKey "tag" = true then do
                let tag ← vSub (vMap im) "tag"
                let hasPath ← pyIn "path" tag
                if hasPath then do
                  let path ← vSub tag "path"
                  cmpPathField d d path "image.tag"
                else pure []
              else pure ([] : List String)) = .ok [] := by
              cases hT : im.lookup "tag" with
              | none =>
                  rw [show im.hasKey "tag" = false by simp [VMap.hasKey, hT]]
                  rw [if_neg Bool.false_ne_true]
                  rfl
              | some tag =>
                  rw [hT] at htag
                  rw [show im.hasKey "tag" = true by simp [VMap.hasKey, hT]]
                  rw [if_pos rfl, vSub_lookup hT]
                  simp only [Res.bind_ok]
                  cases tag with
                  | vMap tm =>
                      have htag2 : (match tm.lookup "path" with
                          | none => true
                          | some p => pathRes d p) = true := htag
                      rw [pyIn_hasKey]
                      simp only [Res.bind_ok]
                      cases hP : tm.lookup "path" with
                      | none =>
                          rw [show tm.hasKey "path" = false by simp [VMap.hasKey, hP]]
                          rw [if_neg Bool.false_ne_true]
                          rfl
                      | some p =>
                          rw [hP] at htag2
                          rw [show tm.hasKey "path" = true by simp [VMap.hasKey, hP]]
                          rw [if_pos rfl, vSub_lookup hP]
                          simp only [Res.bind_ok]
                          exact cmpPathField_self d p "image.tag" htag2
                  | vNull => exact absurd htag Bool.false_ne_true
                  | vBool b => exact absurd htag Bool.false_ne_true
                  | vInt n => exact absurd htag Bool.false_ne_true
                  | vFloat ip f => exact absurd htag Bool.false_ne_true
                  | vStr s => exact absurd htag Bool.false_ne_true
                  | vList l => exact absurd htag Bool.false_ne_true
            rw [htagBlock]
            rfl
        | vNull => exact absurd himg Bool.false_ne_true
        | vBool b => exact absurd himg Bool.false_ne_true
        | vInt n => exact absurd himg Bool.false_ne_true
        | vFloat ip f => exact absurd himg Bool.false_ne_true
        | vStr s => exact absurd himg Bool.false_ne_true
        | vList l => exact absurd himg Bool.false_ne_true
  rw [himgBlock]
  simp only [Res.bind_ok]
  rw [pyIn_hasKey]
  simp only [Res.bind_ok]
  have hresBlock : (if m.hasKey "resources" = true then do
      let rc ← vSub (vMap m) "resources"
      match rc with
      | vMap _ => do
          let hasPath ← pyIn "path" rc
          if hasPath then do
            let path ← vSub rc "path"
            cmpPathField d d path "resources"
          else pure []
      | _ => pure []
    else pure ([] : List String)) = .ok [] := by
    cases hR : m.lookup "resources" with
    | none =>
        rw [show m.hasKey "resources" = false by simp [VMap.hasKey, hR]]
        rw [if_neg Bool.false_ne_true]
        rfl
    | some rc =>
        rw [hR] at hres
        rw [show m.hasKey "resources" = true by simp [VMap.hasKey, hR]]
        rw [if_pos rfl, vSub_lookup hR]
        simp only [Res.bind_ok]
        cases rc with
        | vMap rm =>
            have hres2 : (match rm.lookup "path" with
                | none => true
                | some p => pathRes d p) = true := hres
            rw [pyIn_hasKey]
            simp only [Res.bind_ok]
            cases hP : rm.lookup "path" with
            | none =>
                rw [show rm.hasKey "path" = false by simp [VMap.hasKey, hP]]
                rw [if_neg Bool.false_ne_true]
                rfl
            | some p =>
                rw [hP] at hres2
                rw [show rm.hasKey "path" = true by simp [VMap.hasKey, hP]]
                rw [if_pos rfl, vSub_lookup hP]
                simp only [Res.bind_ok]
                exact cmpPathField_self d p "resources" hres2
        | vNull => rfl
        | vBool b => rfl
        | vInt n => rfl
        | vFloat ip f => rfl
        | vStr s => rfl
        | vList l => rfl
  rw [hresBlock]
  rfl

theorem compare_configmap_data_self (m : VMap) (hd : docDataWfB (vMap m) = true) :
    compare_configmap_data (vMap m) (vMap m) = .ok (true, "All data fields match") := by
  have hd2 : (match m.lookup "data" with
      | some (vMap dm) =>
          dataSelfOkB (dm.filterOut "_example") (dm.filterOut "_example")
      | some _ => false
      | none => true) = true := hd
  rw [compare_configmap_data]
  cases hD : m.lookup "data" with
  | none =>
      rw [show pyGet (vMap m) "data" (vMap .nil) = .ok (vMap .nil) by simp [pyGet, hD]]
      rfl
  | some dv =>
      rw [hD] at hd2
      rw [show pyGet (vMap m) "data" (vMap .nil) = .ok dv by simp [pyGet, hD]]
      simp only [Res.bind_ok]
      cases dv with
      | vMap dm =>
          simp only [expectMap, Res.bind_ok]
          rw [setEqStrs_self]
          simp only [not_true, if_false]
          rw [cmpDataKeys_self _ _ hd2]
          simp
      | vNull => exact absurd hd2 Bool.false_ne_true
      | vBool b => exact absurd hd2 Bool.false_ne_true
      | vInt n => exact absurd hd2 Bool.false_ne_true
      | vFloat ip f => exact absurd hd2 Bool.false_ne_true
      | vStr s => exact absurd hd2 Bool.false_ne_true
      | vList l => exact absurd hd2 Bool.false_ne_true

theorem processKey_self (pairs npairs : List (String × Val))
    (ms : Option (List (String × Val))) (st : LoopSt) (key : String)
    (hsucc : st.success = true)
    (hok : selfKeyOkB pairs npairs ms key = true) :
    processKey pairs pairs npairs npairs ms st key = .ok st := by
  obtain ⟨s, c, mn⟩ := st
  have hs : s = true := hsucc
  subst hs
  rw [selfKeyOkB] at hok
  cases hfw : firstWithKey pairs key with
  | err e => rw [hfw] at hok; exact absurd hok Bool.false_ne_true
  | ok d =>
      rw [hfw] at hok
      cases hll : lookupLast npairs key with
      | err e => rw [hll] at hok; exact absurd hok Bool.false_ne_true
      | ok n =>
          rw [hll] at hok
          simp only [Bool.and_eq_true] at hok
          obtain ⟨⟨hwf, hcm⟩, hmap⟩ := hok
          rw [processKey, hfw]
          simp only [Res.bind_ok]
          by_cases hk : key = "ConfigMap/kserve/inferenceservice-config"
          · rw [if_pos hk] at hcm
            rw [if_pos hk]
            cases d with
            | vMap dm =>
                rw [compare_configmap_data_self dm hcm]
                rfl
            | vNull => exact absurd hcm Bool.false_ne_true
            | vBool b => exact absurd hcm Bool.false_ne_true
            | vInt k => exact absurd hcm Bool.false_ne_true
            | vFloat ip f => exact absurd hcm Bool.false_ne_true
            | vStr t => exact absurd hcm Bool.false_ne_true
            | vList l => exact absurd hcm Bool.false_ne_true
          · rw [if_neg hk]
            have hplain : (do
                let k_n ← lookupLast npairs key
                let h_n ← lookupLast npairs key
                if ¬ pyEq d d then
                  if pyEq k_n h_n then
                    pure ({ success := true, critical := c, minor := mn ++ [key] } : LoopSt)
                  else pure ({ success := true, critical := c ++ [key], minor := mn } : LoopSt)
                else pure ({ success := true, critical := c, minor := mn } : LoopSt)) =
                .ok { success := true, critical := c, minor := mn } := by
              rw [hll]
              simp only [Res.bind_ok]
              rw [if_neg (not_not_intro (pyEq_refl d hwf))]
              rfl
            cases ms with
            | none =>
                rw [show mapperFor none d = pure (none : Option Val) from rfl]
                simp only [Res.pure_eq, Res.bind_ok]
                exact hplain
            | some l =>
                have hmap2 : (if l ≠ [] then mapperSelfOk l d else true) = true := hmap
                by_cases hl : l ≠ []
                · rw [show mapperFor (some l) d =
                    (if l ≠ [] then find_mapper_config_for_resource l d else pure none)
                    from rfl, if_pos hl]
                  rw [if_pos hl] at hmap2
                  have hms : (match find_mapper_config_for_resource l d with
                      | .ok none => true
                      | .ok (some cfg) => mapperEntryPathsOk cfg d
                      | .err _ => false) = true := hmap2
                  cases hfm : find_mapper_config_for_resource l d with
                  | err e => rw [hfm] at hms; exact absurd hms Bool.false_ne_true
                  | ok mc =>
                      rw [hfm] at hms
                      simp only [Res.bind_ok]
                      cases mc with
                      | none => exact hplain
                      | some cfg =>
                          cases cfg with
                          | vMap mm =>
                              simp only [compare_mapped_fields_self d mm hms,
                                Res.bind_ok, Res.pure_eq]
                              rfl
                          | vNull => exact absurd hms Bool.false_ne_true
                          | vBool b => exact absurd hms Bool.false_ne_true
                          | vInt k => exact absurd hms Bool.false_ne_true
                          | vFloat ip f => exact absurd hms Bool.false_ne_true
                          | vStr t => exact absurd hms Bool.false_ne_true
                          | vList ll => exact absurd hms Bool.false_ne_true
                · rw [show mapperFor (some l) d =
                    (if l ≠ [] then find_mapper_config_for_resource l d else pure none)
                    from rfl, if_neg hl]
                  simp only [Res.pure_eq, Res.bind_ok]
                  exact hplain

theorem processKeys_self (pairs npairs : List (String × Val))
    (ms : Option (List (String × Val))) (st : LoopSt) (hsucc : st.success = true) :
    ∀ keys : List String, keys.all (selfKeyOkB pairs npairs ms) = true →
      processKeys pairs pairs npairs npairs ms st keys = .ok st
  | [], _ => rfl
  | key :: rest, h => by
      simp only [List.all_cons, Bool.and_eq_true] at h
      rw [processKeys, processKey_self pairs npairs ms st key hsucc h.1]
      simp only [Res.bind_ok]
      exact processKeys_self pairs npairs ms st hsucc rest h.2

theorem filter_not_contains (l m : List String) (h : ∀ x ∈ l, m.contains x = true) :
    (l.filter (fun k => ¬ m.contains k)) = [] := by
  induction l with
  | nil => rfl
  | cons a t ih =>
      have ha := h a (by simp)
      simp only [List.filter_cons, ha]
      simp only [not_true, decide_False]
      exact ih fun x hx => h x (List.mem_cons_of_mem a hx)

theorem filter_contains (l m : List String) (h : ∀ x ∈ l, m.contains x = true) :
    (l.filter (fun k => m.contains k)) = l := by
  induction l with
  | nil => rfl
  | cons a t ih =>
      have ha := h a (by simp)
      simp only [List.filter_cons, ha, if_true]
      rw [ih fun x hx => h x (List.mem_cons_of_mem a hx)]

/-- C4 (amended): comparing a well-formed resource set against itself with
CRDs excluded passes with zero reported differences.  Well-formedness is
the stated hypotheses: CRD filtering, key extraction and normalization
succeed, and every common key satisfies the per-key self-comparison
condition (well-formed document; self-comparing config data on the special
ConfigMap key; a mapper lookup that neither raises nor yields unresolvable
field paths).  The last condition is necessary: the original claim
quantifies over *every* mapping configuration, and a mapper entry whose
declared path does not resolve in the document makes the self-comparison
fail (see the counterexample). -/
theorem c4_self_compare (docs : List Val) (mappers : Option (List (String × Val)))
    (name : String) (fX : List Val) (ks : List String) (ns : List Val)
    (hf : filterCRDs docs = .ok fX)
    (hk : keysOf fX = .ok ks)
    (hn : normsOf fX = .ok ns)
    (hkeys : (sortStrs (dedupFirst ks)).all
      (selfKeyOkB (ks.zip fX) (ks.zip ns) mappers) = true) :
    compare_resources docs docs name mappers true =
      .ok (true,
        { testName := name
          kustomizeCount := fX.length
          helmCount := fX.length
          namespaceOnly := []
          otherOnlyKustomize := []
          onlyInHelm := []
          commonCount := (dedupFirst ks).length
          criticalDiffs := []
          minorDiffs := [] }) := by
  have hcontains : ∀ x ∈ dedupFirst ks, (dedupFirst ks).contains x = true :=
    fun x hx => contains_of_mem_str _ x hx
  rw [compare_resources, if_pos rfl, hf]
  simp only [Res.bind_ok]
  rw [hk]
  simp only [Res.bind_ok]
  rw [hn]
  simp only [Res.bind_ok]
  rw [filter_not_contains _ _ hcontains, filter_contains _ _ hcontains]
  simp only [List.filter_nil, ne_eq, not_true_eq_false, if_false, if_true]
  rw [processKeys_self _ _ _ _ rfl _ hkeys]
  simp [sortStrs]

/-- C4 counterexample: the claim quantifies over every mapping
configuration, but self-comparison under a mapper whose declared image
path does not resolve in the document records the resource as a critical
difference and fails the run - comparing X against X is not always a
pass. -/
theorem c4_self_compare_cex :
    compare_resources [ctrlNoImageDoc] [ctrlNoImageDoc] "self" (some badPathMappers) true =
    .ok (false,
      { testName := "self"
        kustomizeCount := 1
        helmCount := 1
        namespaceOnly := []
        otherOnlyKustomize := []
        onlyInHelm := []
        commonCount := 1
        criticalDiffs := ["Deployment/kserve-controller-manager"]
        minorDiffs := [] }) := by
  decide

theorem c4_self_compare_witness :
    (filterCRDs [infCfgMap] = .ok [infCfgMap] ∧
     keysOf [infCfgMap] = .ok ["ConfigMap/kserve/inferenceservice-config"] ∧
     normsOf [infCfgMap] = .ok [infCfgMap] ∧
     (sortStrs (dedupFirst ["ConfigMap/kserve/inferenceservice-config"])).all
       (selfKeyOkB (["ConfigMap/kserve/inferenceservice-config"].zip [infCfgMap])
         (["ConfigMap/kserve/inferenceservice-config"].zip [infCfgMap]) none) = true) ∧
    compare_resources [infCfgMap] [infCfgMap] "self" none true =
      .ok (true,
        { testName := "self"
          kustomizeCount := 1
          helmCount := 1
          namespaceOnly := []
          otherOnlyKustomize := []
          onlyInHelm := []
          commonCount := 1
          criticalDiffs := []
          minorDiffs := [] }) :=
  ⟨⟨by decide, by decide, by decide, by decide⟩,
    c4_self_compare [infCfgMap] none "self" [infCfgMap]
      ["ConfigMap/kserve/inferenceservice-config"] [infCfgMap]
      (by decide) (by decide) (by decide) (by decide)⟩

end KserveHelm
